import Mathlib

/-
Verification of the StellarAiV2 local data-at-rest confidentiality layer
(src/services/encryptionService.ts) and its one caller with persistence
(src/services/githubService.ts).

The encryption service is a thin wrapper over platform primitives:
TextEncoder/TextDecoder (UTF-8), btoa/atob (forgiving base64), and
window.crypto.subtle (PBKDF2 key derivation and AES-GCM).  The wrapper
logic (key caching, nonce prepending, base64 framing, error flow) is
embedded concretely below; the AEAD cipher and the key-derivation
function are abstracted as a `CryptoProvider` structure, with the
standard AES-GCM contracts (round trip, 16-byte tag expansion,
rejection of modified ciphertexts) taken as explicit hypotheses where a
claim needs them.  Platform text/encoding primitives are embedded from
their WHATWG/ECMAScript specifications, which define the observable
behaviour of the calls the source makes.
-/

set_option maxRecDepth 8192

namespace StellarAI

/-! ### UTF-8: model of `TextEncoder.encode` and `TextDecoder.decode`

`TextEncoder.encode` UTF-8-encodes a string (code points; Lean `Char`
is exactly a Unicode scalar value, as is a JS string position for the
strings this code handles).  `new TextDecoder().decode` runs the WHATWG
"UTF-8 decode" algorithm: strip one leading byte-order mark if present,
then decode with the replacement-character policy (`fatal: false` is the
default, so malformed input produces U+FFFD and never throws). -/

/-- UTF-8 encoding of one Unicode scalar value. -/
def utf8EncodeChar (c : Nat) : List Nat :=
  if c < 0x80 then [c]
  else if c < 0x800 then [0xC0 + c / 64, 0x80 + c % 64]
  else if c < 0x10000 then
    [0xE0 + c / 4096, 0x80 + c / 64 % 64, 0x80 + c % 64]
  else
    [0xF0 + c / 262144, 0x80 + c / 4096 % 64, 0x80 + c / 64 % 64, 0x80 + c % 64]

/-- Model of `TextEncoder.encode`: UTF-8 bytes of a string. -/
def utf8Encode (s : String) : List Nat :=
  s.data.flatMap (fun c => utf8EncodeChar c.toNat)

/-- State of the WHATWG UTF-8 decoder: accumulated code point, number of
continuation bytes still needed, and the allowed range for the next
continuation byte. -/
structure Utf8St where
  codePoint : Nat
  needed : Nat
  lower : Nat
  upper : Nat
deriving DecidableEq

/-- The decoder's initial state. -/
def utf8Init : Utf8St := ⟨0, 0, 0x80, 0xBF⟩

/-- Process one byte at the start of a sequence (decoder state with
`needed = 0`), per the WHATWG UTF-8 decoder. -/
def utf8Start (b : Nat) : List Nat × Utf8St :=
  if b < 0x80 then ([b], utf8Init)
  else if 0xC2 ≤ b ∧ b ≤ 0xDF then ([], ⟨b - 0xC0, 1, 0x80, 0xBF⟩)
  else if 0xE0 ≤ b ∧ b ≤ 0xEF then
    ([], ⟨b - 0xE0, 2, if b = 0xE0 then 0xA0 else 0x80,
      if b = 0xED then 0x9F else 0xBF⟩)
  else if 0xF0 ≤ b ∧ b ≤ 0xF4 then
    ([], ⟨b - 0xF0, 3, if b = 0xF0 then 0x90 else 0x80,
      if b = 0xF4 then 0x8F else 0xBF⟩)
  else ([0xFFFD], utf8Init)

/-- Process one byte in an arbitrary decoder state.  An out-of-range
continuation byte emits U+FFFD, resets the state, and reprocesses the
byte ("restore byte to stream" in the WHATWG algorithm). -/
def utf8Step (st : Utf8St) (b : Nat) : List Nat × Utf8St :=
  if st.needed = 0 then utf8Start b
  else if st.lower ≤ b ∧ b ≤ st.upper then
    if st.needed = 1 then ([st.codePoint * 64 + (b - 0x80)], utf8Init)
    else ([], ⟨st.codePoint * 64 + (b - 0x80), st.needed - 1, 0x80, 0xBF⟩)
  else (0xFFFD :: (utf8Start b).1, (utf8Start b).2)

/-- Run the decoder over a byte list; a truncated sequence at
end-of-stream emits one final U+FFFD. -/
def utf8Run : Utf8St → List Nat → List Nat
  | st, [] => if st.needed = 0 then [] else [0xFFFD]
  | st, b :: rest => (utf8Step st b).1 ++ utf8Run (utf8Step st b).2 rest

/-- WHATWG UTF-8 decoder with the replacement policy (`fatal: false`,
the default of `new TextDecoder()`): malformed sequences yield U+FFFD
and decoding never fails.  Input is a byte list, output the list of
decoded Unicode scalar values. -/
def utf8DecodeScalars (l : List Nat) : List Nat := utf8Run utf8Init l

/-- The UTF-8 byte-order mark. -/
def utf8BOM : List Nat := [0xEF, 0xBB, 0xBF]

/-- Model of `new TextDecoder().decode`: WHATWG "UTF-8 decode" — strip a
single leading BOM if present (the default `ignoreBOM: false`), then
decode with replacement characters for malformed input.  Total: this
call never throws. -/
def textDecode (bytes : List Nat) : String :=
  String.mk ((utf8DecodeScalars
    (if bytes.take 3 = utf8BOM then bytes.drop 3 else bytes)).map Char.ofNat)

theorem utf8EncodeChar_lt_256 (c : Nat) (h : c < 0x110000) :
    ∀ b ∈ utf8EncodeChar c, b < 256 := by
  unfold utf8EncodeChar
  split
  · intro b hb; simp only [List.mem_singleton] at hb; omega
  · split
    · intro b hb
      simp only [List.mem_cons, List.mem_singleton, List.not_mem_nil, or_false] at hb
      rcases hb with h1 | h1 <;> omega
    · split
      · intro b hb
        simp only [List.mem_cons, List.not_mem_nil, or_false] at hb
        rcases hb with h1 | h1 | h1 <;> omega
      · intro b hb
        simp only [List.mem_cons, List.not_mem_nil, or_false] at hb
        rcases hb with h1 | h1 | h1 | h1 <;> omega

theorem utf8Start_ascii (b : Nat) (h : b < 0x80) :
    utf8Start b = ([b], utf8Init) := by
  unfold utf8Start
  rw [if_pos h]

theorem utf8Start_lead2 (b : Nat) (h : 0xC2 ≤ b ∧ b ≤ 0xDF) :
    utf8Start b = ([], ⟨b - 0xC0, 1, 0x80, 0xBF⟩) := by
  unfold utf8Start
  rw [if_neg (by omega), if_pos h]

theorem utf8Start_lead3 (b : Nat) (h : 0xE0 ≤ b ∧ b ≤ 0xEF) :
    utf8Start b = ([], ⟨b - 0xE0, 2, if b = 0xE0 then 0xA0 else 0x80,
      if b = 0xED then 0x9F else 0xBF⟩) := by
  unfold utf8Start
  rw [if_neg (by omega), if_neg (by omega), if_pos h]

theorem utf8Start_lead4 (b : Nat) (h : 0xF0 ≤ b ∧ b ≤ 0xF4) :
    utf8Start b = ([], ⟨b - 0xF0, 3, if b = 0xF0 then 0x90 else 0x80,
      if b = 0xF4 then 0x8F else 0xBF⟩) := by
  unfold utf8Start
  rw [if_neg (by omega), if_neg (by omega), if_neg (by omega), if_pos h]

theorem utf8Step_init (b : Nat) : utf8Step utf8Init b = utf8Start b := by
  unfold utf8Step
  rw [if_pos (show utf8Init.needed = 0 from rfl)]

theorem utf8Step_contLast (st : Utf8St) (b : Nat) (hn : st.needed = 1)
    (h : st.lower ≤ b ∧ b ≤ st.upper) :
    utf8Step st b = ([st.codePoint * 64 + (b - 0x80)], utf8Init) := by
  unfold utf8Step
  rw [if_neg (by omega), if_pos h, if_pos hn]

theorem utf8Step_contMid (st : Utf8St) (b : Nat) (hn : st.needed ≠ 0)
    (hn1 : st.needed ≠ 1) (h : st.lower ≤ b ∧ b ≤ st.upper) :
    utf8Step st b =
      ([], ⟨st.codePoint * 64 + (b - 0x80), st.needed - 1, 0x80, 0xBF⟩) := by
  unfold utf8Step
  rw [if_neg hn, if_pos h, if_neg hn1]

theorem utf8Run_cons (st : Utf8St) (b : Nat) (rest : List Nat) :
    utf8Run st (b :: rest) = (utf8Step st b).1 ++ utf8Run (utf8Step st b).2 rest :=
  rfl

theorem utf8DecodeScalars_encodeChar (c : Nat)
    (hv : c < 0xD800 ∨ (0xDFFF < c ∧ c < 0x110000)) (rest : List Nat) :
    utf8DecodeScalars (utf8EncodeChar c ++ rest) = c :: utf8DecodeScalars rest := by
  unfold utf8DecodeScalars
  rcases Nat.lt_or_ge c 0x80 with h1 | h1
  · rw [show utf8EncodeChar c = [c] from by unfold utf8EncodeChar; rw [if_pos h1]]
    rw [List.cons_append, List.nil_append, utf8Run_cons, utf8Step_init,
      utf8Start_ascii c h1]
    rfl
  · rcases Nat.lt_or_ge c 0x800 with h2 | h2
    · rw [show utf8EncodeChar c = [0xC0 + c / 64, 0x80 + c % 64] from by
        unfold utf8EncodeChar; rw [if_neg (by omega), if_pos h2]]
      rw [List.cons_append, List.cons_append, List.nil_append, utf8Run_cons,
        utf8Step_init, utf8Start_lead2 _ (by omega)]
      show utf8Run ⟨0xC0 + c / 64 - 0xC0, 1, 0x80, 0xBF⟩
          ((0x80 + c % 64) :: rest) = c :: utf8Run utf8Init rest
      have hc1 : (0x80 : Nat) ≤ 0x80 + c % 64 ∧ 0x80 + c % 64 ≤ 0xBF := by omega
      rw [utf8Run_cons, utf8Step_contLast _ _ rfl hc1]
      show ((0xC0 + c / 64 - 0xC0) * 64 + (0x80 + c % 64 - 0x80)) ::
          utf8Run utf8Init rest = c :: utf8Run utf8Init rest
      have hval : (0xC0 + c / 64 - 0xC0) * 64 + (0x80 + c % 64 - 0x80) = c := by omega
      rw [hval]
    · rcases Nat.lt_or_ge c 0x10000 with h3 | h3
      · rw [show utf8EncodeChar c =
            [0xE0 + c / 4096, 0x80 + c / 64 % 64, 0x80 + c % 64] from by
          unfold utf8EncodeChar; rw [if_neg (by omega), if_neg (by omega), if_pos h3]]
        rw [List.cons_append, List.cons_append, List.cons_append, List.nil_append,
          utf8Run_cons, utf8Step_init, utf8Start_lead3 _ (by omega)]
        show utf8Run ⟨0xE0 + c / 4096 - 0xE0, 2,
            if 0xE0 + c / 4096 = 0xE0 then 0xA0 else 0x80,
            if 0xE0 + c / 4096 = 0xED then 0x9F else 0xBF⟩
          ((0x80 + c / 64 % 64) :: (0x80 + c % 64) :: rest) =
            c :: utf8Run utf8Init rest
        have hcm : (if 0xE0 + c / 4096 = 0xE0 then (0xA0 : Nat) else 0x80) ≤
            0x80 + c / 64 % 64 ∧
            0x80 + c / 64 % 64 ≤ (if 0xE0 + c / 4096 = 0xED then (0x9F : Nat) else 0xBF) := by
          refine ⟨?_, ?_⟩ <;> (split <;> omega)
        rw [utf8Run_cons, utf8Step_contMid _ _ (show (2 : Nat) ≠ 0 by omega)
          (show (2 : Nat) ≠ 1 by omega) hcm]
        show utf8Run ⟨(0xE0 + c / 4096 - 0xE0) * 64 + (0x80 + c / 64 % 64 - 0x80),
            2 - 1, 0x80, 0xBF⟩ ((0x80 + c % 64) :: rest) = c :: utf8Run utf8Init rest
        have hc2 : (0x80 : Nat) ≤ 0x80 + c % 64 ∧ 0x80 + c % 64 ≤ 0xBF := by omega
        rw [utf8Run_cons, utf8Step_contLast _ _ rfl hc2]
        show (((0xE0 + c / 4096 - 0xE0) * 64 + (0x80 + c / 64 % 64 - 0x80)) * 64 +
            (0x80 + c % 64 - 0x80)) :: utf8Run utf8Init rest = c :: utf8Run utf8Init rest
        have hval : ((0xE0 + c / 4096 - 0xE0) * 64 + (0x80 + c / 64 % 64 - 0x80)) * 64 +
            (0x80 + c % 64 - 0x80) = c := by omega
        rw [hval]
      · rw [show utf8EncodeChar c =
            [0xF0 + c / 262144, 0x80 + c / 4096 % 64, 0x80 + c / 64 % 64,
              0x80 + c % 64] from by
          unfold utf8EncodeChar
          rw [if_neg (by omega), if_neg (by omega), if_neg (by omega)]]
        rw [List.cons_append, List.cons_append, List.cons_append, List.cons_append,
          List.nil_append, utf8Run_cons, utf8Step_init, utf8Start_lead4 _ (by omega)]
        show utf8Run ⟨0xF0 + c / 262144 - 0xF0, 3,
            if 0xF0 + c / 262144 = 0xF0 then 0x90 else 0x80,
            if 0xF0 + c / 262144 = 0xF4 then 0x8F else 0xBF⟩
          ((0x80 + c / 4096 % 64) :: (0x80 + c / 64 % 64) :: (0x80 + c % 64) :: rest) =
            c :: utf8Run utf8Init rest
        have hcm : (if 0xF0 + c / 262144 = 0xF0 then (0x90 : Nat) else 0x80) ≤
            0x80 + c / 4096 % 64 ∧
            0x80 + c / 4096 % 64 ≤
              (if 0xF0 + c / 262144 = 0xF4 then (0x8F : Nat) else 0xBF) := by
          refine ⟨?_, ?_⟩ <;> (split <;> omega)
        rw [utf8Run_cons, utf8Step_contMid _ _ (show (3 : Nat) ≠ 0 by omega)
          (show (3 : Nat) ≠ 1 by omega) hcm]
        show utf8Run ⟨(0xF0 + c / 262144 - 0xF0) * 64 + (0x80 + c / 4096 % 64 - 0x80),
            3 - 1, 0x80, 0xBF⟩
          ((0x80 + c / 64 % 64) :: (0x80 + c % 64) :: rest) = c :: utf8Run utf8Init rest
        have hc2 : (0x80 : Nat) ≤ 0x80 + c / 64 % 64 ∧ 0x80 + c / 64 % 64 ≤ 0xBF := by
          omega
        rw [utf8Run_cons, utf8Step_contMid _ _ (show (2 : Nat) ≠ 0 by omega)
          (show (2 : Nat) ≠ 1 by omega) hc2]
        show utf8Run ⟨((0xF0 + c / 262144 - 0xF0) * 64 + (0x80 + c / 4096 % 64 - 0x80)) *
            64 + (0x80 + c / 64 % 64 - 0x80), 2 - 1, 0x80, 0xBF⟩
          ((0x80 + c % 64) :: rest) = c :: utf8Run utf8Init rest
        have hc3 : (0x80 : Nat) ≤ 0x80 + c % 64 ∧ 0x80 + c % 64 ≤ 0xBF := by omega
        rw [utf8Run_cons, utf8Step_contLast _ _ rfl hc3]
        show ((((0xF0 + c / 262144 - 0xF0) * 64 + (0x80 + c / 4096 % 64 - 0x80)) * 64 +
            (0x80 + c / 64 % 64 - 0x80)) * 64 + (0x80 + c % 64 - 0x80)) ::
            utf8Run utf8Init rest = c :: utf8Run utf8Init rest
        have hval : (((0xF0 + c / 262144 - 0xF0) * 64 + (0x80 + c / 4096 % 64 - 0x80)) *
            64 + (0x80 + c / 64 % 64 - 0x80)) * 64 + (0x80 + c % 64 - 0x80) = c := by
          omega
        rw [hval]

theorem char_valid_scalar (c : Char) :
    c.toNat < 0xD800 ∨ (0xDFFF < c.toNat ∧ c.toNat < 0x110000) := by
  have h := c.valid
  rcases h with h | h
  · left
    exact h
  · right
    exact h

theorem utf8DecodeScalars_encode_chars (cs : List Char) :
    utf8DecodeScalars (cs.flatMap (fun c => utf8EncodeChar c.toNat)) =
      cs.map Char.toNat := by
  induction cs with
  | nil => rfl
  | cons c cs ih =>
    simp only [List.flatMap_cons, List.map_cons]
    rw [utf8DecodeScalars_encodeChar c.toNat (char_valid_scalar c), ih]

theorem utf8Encode_lt_256 (s : String) : ∀ b ∈ utf8Encode s, b < 256 := by
  intro b hb
  unfold utf8Encode at hb
  rcases List.mem_flatMap.mp hb with ⟨c, _, hc⟩
  have hv := char_valid_scalar c
  exact utf8EncodeChar_lt_256 c.toNat (by omega) b hc

/-! ### Base64: model of `btoa` and `atob`

The source calls `btoa(String.fromCharCode(...bytes))`, i.e. standard
base64 with `=` padding over a byte sequence, and
`Uint8Array.from(atob(blob), c => c.charCodeAt(0))`.  `atob` is the
HTML "forgiving-base64 decode": remove ASCII whitespace; if the length
is a multiple of four, strip up to two trailing `=`; fail if the
remaining length is 1 mod 4 or if any remaining character is outside
the base64 alphabet; otherwise decode, discarding leftover bits of a
trailing chunk. -/

/-- The standard base64 alphabet, in index order. -/
def b64Chars : List Char :=
  "ABCDEFGHIJKLMNOPQRSTUVWXYZabcdefghijklmnopqrstuvwxyz0123456789+/".data

/-- Character for a 6-bit value. -/
def b64Char (n : Nat) : Char := b64Chars.getD n 'A'

/-- Index of a character in the base64 alphabet, `none` if absent. -/
def b64Index (c : Char) : Option Nat := b64Chars.findIdx? (fun x => x == c)

/-- Split bytes into 6-bit groups (bit-level: each 3-byte chunk becomes
four sextets, a trailing 1- or 2-byte chunk becomes two or three with
zero-padded low bits). -/
def b64Sextets : List Nat → List Nat
  | [] => []
  | [b0] => [b0 / 4, b0 % 4 * 16]
  | [b0, b1] => [b0 / 4, b0 % 4 * 16 + b1 / 16, b1 % 16 * 4]
  | b0 :: b1 :: b2 :: rest =>
    b0 / 4 :: (b0 % 4 * 16 + b1 / 16) :: (b1 % 16 * 4 + b2 / 64) :: b2 % 64 ::
      b64Sextets rest

/-- Model of `btoa` applied to a byte string: base64 text with `=`
padding to a multiple of four characters. -/
def base64Encode (bs : List Nat) : String :=
  ⟨(b64Sextets bs).map b64Char ++ List.replicate ((3 - bs.length % 3) % 3) '='⟩

/-- ASCII whitespace, which forgiving-base64 decoding removes. -/
def isAsciiWs (c : Char) : Bool :=
  c == ' ' || c == '\t' || c == '\n' || c == '\r' || c.toNat == 12

/-- Drop up to two leading `=` of a reversed character list (i.e. up to
two trailing `=` of the original). -/
def dropPadRev : List Char → List Char
  | c1 :: c2 :: rest =>
    if c1 = '=' then (if c2 = '=' then rest else c2 :: rest) else c1 :: c2 :: rest
  | [c1] => if c1 = '=' then [] else [c1]
  | [] => []

/-- Strip up to two trailing `=` when the length is a multiple of four
(step 2 of forgiving-base64 decode). -/
def stripB64Padding (l : List Char) : List Char :=
  if l.length % 4 = 0 then (dropPadRev l.reverse).reverse else l

/-- Reassemble bytes from 6-bit values: full quadruples give three
bytes, a trailing pair or triple gives one or two bytes (leftover bits
discarded), and a trailing single value is an error. -/
def b64DecodeQuads : List Nat → Option (List Nat)
  | [] => some []
  | [_] => none
  | [a, b] => some [a * 4 + b / 16]
  | [a, b, c] => some [a * 4 + b / 16, b % 16 * 16 + c / 4]
  | a :: b :: c :: d :: rest =>
    (b64DecodeQuads rest).map
      (fun t => (a * 4 + b / 16) :: (b % 16 * 16 + c / 4) :: (c % 4 * 64 + d) :: t)

/-- Look up every character in the base64 alphabet, failing if any is
absent (step 4 of forgiving-base64 decode). -/
def b64IndexAll : List Char → Option (List Nat)
  | [] => some []
  | c :: cs =>
    match b64Index c, b64IndexAll cs with
    | some v, some vs => some (v :: vs)
    | _, _ => none

/-- Model of `atob` followed by `charCodeAt` on every position: the
forgiving-base64 decode of a string, as a byte list, `none` on failure
(where the browser call throws `InvalidCharacterError`). -/
def atobBytes (s : String) : Option (List Nat) :=
  if (stripB64Padding (s.data.filter (fun c => !isAsciiWs c))).length % 4 = 1 then
    none
  else
    match b64IndexAll (stripB64Padding (s.data.filter (fun c => !isAsciiWs c))) with
    | none => none
    | some sextets => b64DecodeQuads sextets

theorem b64Char_lt_ne_eq : ∀ n, n < 64 → b64Char n ≠ '=' := by decide

theorem b64Char_ne_eq (n : Nat) : b64Char n ≠ '=' := by
  rcases Nat.lt_or_ge n 64 with h | h
  · exact b64Char_lt_ne_eq n h
  · rw [show b64Char n = 'A' from by
      unfold b64Char
      exact List.getD_eq_default _ _ (by rw [show b64Chars.length = 64 from rfl]; omega)]
    decide

theorem b64Char_lt_not_ws : ∀ n, n < 64 → isAsciiWs (b64Char n) = false := by decide

theorem b64Char_not_ws (n : Nat) : isAsciiWs (b64Char n) = false := by
  rcases Nat.lt_or_ge n 64 with h | h
  · exact b64Char_lt_not_ws n h
  · rw [show b64Char n = 'A' from by
      unfold b64Char
      exact List.getD_eq_default _ _ (by rw [show b64Chars.length = 64 from rfl]; omega)]
    decide

theorem b64Index_b64Char : ∀ n, n < 64 → b64Index (b64Char n) = some n := by decide

theorem b64Sextets_lt64 (bs : List Nat) (h : ∀ b ∈ bs, b < 256) :
    ∀ v ∈ b64Sextets bs, v < 64 := by
  induction bs using b64Sextets.induct with
  | case1 => intro v hv; simp [b64Sextets] at hv
  | case2 b0 =>
    intro v hv
    have hb0 := h b0 (by simp)
    simp only [b64Sextets, List.mem_cons, List.not_mem_nil, or_false] at hv
    rcases hv with hv | hv <;> omega
  | case3 b0 b1 =>
    intro v hv
    have hb0 := h b0 (by simp)
    have hb1 := h b1 (by simp)
    simp only [b64Sextets, List.mem_cons, List.not_mem_nil, or_false] at hv
    rcases hv with hv | hv | hv <;> omega
  | case4 b0 b1 b2 rest ih =>
    intro v hv
    have hb0 := h b0 (by simp)
    have hb1 := h b1 (by simp)
    have hb2 := h b2 (by simp)
    simp only [b64Sextets, List.mem_cons] at hv
    rcases hv with hv | hv | hv | hv | hv
    · omega
    · omega
    · omega
    · omega
    · exact ih (fun b hb => h b (by simp [hb])) v hv

theorem b64Sextets_length (bs : List Nat) :
    (b64Sextets bs).length = (4 * bs.length + 2) / 3 := by
  induction bs using b64Sextets.induct with
  | case1 => rfl
  | case2 b0 => simp [b64Sextets]
  | case3 b0 b1 => simp [b64Sextets]
  | case4 b0 b1 b2 rest ih =>
    simp only [b64Sextets, List.length_cons, ih]
    omega

theorem b64DecodeQuads_sextets (bs : List Nat) (h : ∀ b ∈ bs, b < 256) :
    b64DecodeQuads (b64Sextets bs) = some bs := by
  induction bs using b64Sextets.induct with
  | case1 => rfl
  | case2 b0 =>
    have hb0 := h b0 (by simp)
    simp only [b64Sextets, b64DecodeQuads, Option.some.injEq, List.cons.injEq, and_true]
    omega
  | case3 b0 b1 =>
    have hb0 := h b0 (by simp)
    have hb1 := h b1 (by simp)
    simp only [b64Sextets, b64DecodeQuads, Option.some.injEq, List.cons.injEq, and_true]
    omega
  | case4 b0 b1 b2 rest ih =>
    have hb0 := h b0 (by simp)
    have hb1 := h b1 (by simp)
    have hb2 := h b2 (by simp)
    have ih2 := ih (fun b hb => h b (by simp [hb]))
    simp only [b64Sextets, b64DecodeQuads, ih2, Option.map_some', Option.some.injEq,
      List.cons.injEq, and_true]
    omega

theorem b64IndexAll_map (l : List Nat) (h : ∀ v ∈ l, v < 64) :
    b64IndexAll (l.map b64Char) = some l := by
  induction l with
  | nil => rfl
  | cons x xs ih =>
    have hx := h x (by simp)
    simp only [List.map_cons, b64IndexAll, b64Index_b64Char x hx,
      ih (fun v hv => h v (by simp [hv]))]

theorem b64IndexAll_none (l : List Char) (c : Char) (hc : c ∈ l)
    (h : b64Index c = none) : b64IndexAll l = none := by
  induction l with
  | nil => simp at hc
  | cons x xs ih =>
    rcases List.mem_cons.mp hc with rfl | hmem
    · simp only [b64IndexAll, h]
    · cases hx : b64Index x <;> simp [b64IndexAll, hx, ih hmem]

theorem dropPadRev_no_pad (l : List Char) (h : ∀ c ∈ l, c ≠ '=') :
    dropPadRev l = l := by
  cases l with
  | nil => rfl
  | cons c1 t =>
    cases t with
    | nil =>
      simp only [dropPadRev]
      rw [if_neg (h c1 (by simp))]
    | cons c2 t2 =>
      simp only [dropPadRev]
      rw [if_neg (h c1 (by simp))]

theorem mem_dropPadRev (l : List Char) (c : Char) (hc : c ∈ l) (hne : c ≠ '=') :
    c ∈ dropPadRev l := by
  cases l with
  | nil => exact (List.not_mem_nil c hc).elim
  | cons c1 t =>
    cases t with
    | nil =>
      rcases List.mem_singleton.mp hc with rfl
      simp only [dropPadRev]
      rw [if_neg hne]
      exact List.mem_singleton.mpr rfl
    | cons c2 t2 =>
      simp only [dropPadRev]
      split_ifs with h1 h2
      · rcases List.mem_cons.mp hc with rfl | hc'
        · exact absurd h1 hne
        · rcases List.mem_cons.mp hc' with rfl | hc''
          · exact absurd h2 hne
          · exact hc''
      · rcases List.mem_cons.mp hc with rfl | hc'
        · exact absurd h1 hne
        · exact hc'
      · exact hc

theorem mem_stripB64Padding (l : List Char) (c : Char) (hc : c ∈ l)
    (hne : c ≠ '=') : c ∈ stripB64Padding l := by
  unfold stripB64Padding
  split
  · rw [List.mem_reverse]
    exact mem_dropPadRev _ _ (List.mem_reverse.mpr hc) hne
  · exact hc

theorem atobBytes_badchar (s : String) (c : Char) (hc : c ∈ s.data)
    (hw : isAsciiWs c = false) (hpad : c ≠ '=') (hidx : b64Index c = none) :
    atobBytes s = none := by
  have hmem1 : c ∈ s.data.filter (fun x => !isAsciiWs x) :=
    List.mem_filter.mpr ⟨hc, by simp [hw]⟩
  have hmem2 : c ∈ stripB64Padding (s.data.filter (fun x => !isAsciiWs x)) :=
    mem_stripB64Padding _ _ hmem1 hpad
  unfold atobBytes
  split
  · rfl
  · rw [b64IndexAll_none _ c hmem2 hidx]

theorem stripB64Padding_encode (bs : List Nat) :
    stripB64Padding ((b64Sextets bs).map b64Char ++
        List.replicate ((3 - bs.length % 3) % 3) '=') =
      (b64Sextets bs).map b64Char := by
  have hslen : ((b64Sextets bs).map b64Char).length = (4 * bs.length + 2) / 3 := by
    rw [List.length_map, b64Sextets_length]
  have hne : ∀ c ∈ (b64Sextets bs).map b64Char, c ≠ '=' := by
    intro c hcm
    rcases List.mem_map.mp hcm with ⟨v, _, rfl⟩
    exact b64Char_ne_eq v
  have h3 : bs.length % 3 = 0 ∨ bs.length % 3 = 1 ∨ bs.length % 3 = 2 := by omega
  rcases h3 with h3 | h3 | h3
  · rw [show (3 - bs.length % 3) % 3 = 0 by omega]
    rw [List.replicate_zero, List.append_nil]
    unfold stripB64Padding
    rw [if_pos (by rw [hslen]; omega)]
    rw [dropPadRev_no_pad _ (fun c hcm => hne c (List.mem_reverse.mp hcm))]
    exact List.reverse_reverse _
  · rw [show (3 - bs.length % 3) % 3 = 2 by omega]
    rw [show List.replicate 2 '=' = ['=', '='] from rfl]
    unfold stripB64Padding
    rw [if_pos (by
      rw [List.length_append, hslen]
      simp only [List.length_cons, List.length_nil]
      omega)]
    rw [List.reverse_append,
      show (['=', '='] : List Char).reverse = ['=', '='] from rfl]
    show (dropPadRev ('=' :: '=' :: ((b64Sextets bs).map b64Char).reverse)).reverse =
      (b64Sextets bs).map b64Char
    simp only [dropPadRev, if_pos rfl]
    exact List.reverse_reverse _
  · rw [show (3 - bs.length % 3) % 3 = 1 by omega]
    rw [show List.replicate 1 '=' = ['='] from rfl]
    unfold stripB64Padding
    rw [if_pos (by
      rw [List.length_append, hslen]
      simp only [List.length_cons, List.length_nil]
      omega)]
    rw [List.reverse_append, show (['='] : List Char).reverse = ['='] from rfl]
    cases hrev : ((b64Sextets bs).map b64Char).reverse with
    | nil =>
      exfalso
      have hz : ((b64Sextets bs).map b64Char).length = 0 := by
        rw [← List.length_reverse, hrev]
        rfl
      omega
    | cons c2 t2 =>
      have hc2 : c2 ≠ '=' := hne c2 (List.mem_reverse.mp (by rw [hrev]; simp))
      show (dropPadRev ('=' :: c2 :: t2)).reverse = (b64Sextets bs).map b64Char
      simp only [dropPadRev, if_pos rfl]
      rw [if_neg hc2, ← hrev]
      exact List.reverse_reverse _

theorem atobBytes_base64Encode (bs : List Nat) (h : ∀ b ∈ bs, b < 256) :
    atobBytes (base64Encode bs) = some bs := by
  have hlt := b64Sextets_lt64 bs h
  have hfil : ((b64Sextets bs).map b64Char ++
      List.replicate ((3 - bs.length % 3) % 3) '=').filter (fun c => !isAsciiWs c) =
      (b64Sextets bs).map b64Char ++ List.replicate ((3 - bs.length % 3) % 3) '=' := by
    apply List.filter_eq_self.mpr
    intro a ha
    rcases List.mem_append.mp ha with ha | ha
    · rcases List.mem_map.mp ha with ⟨v, _, rfl⟩
      simp [b64Char_not_ws v]
    · rw [List.eq_of_mem_replicate ha]
      decide
  have hslen : ((b64Sextets bs).map b64Char).length = (4 * bs.length + 2) / 3 := by
    rw [List.length_map, b64Sextets_length]
  unfold atobBytes
  show (if (stripB64Padding ((base64Encode bs).data.filter (fun c => !isAsciiWs c))).length
      % 4 = 1 then none
    else match b64IndexAll
        (stripB64Padding ((base64Encode bs).data.filter (fun c => !isAsciiWs c))) with
      | none => none
      | some sextets => b64DecodeQuads sextets) = some bs
  rw [show (base64Encode bs).data = (b64Sextets bs).map b64Char ++
    List.replicate ((3 - bs.length % 3) % 3) '=' from rfl]
  rw [hfil, stripB64Padding_encode bs]
  rw [if_neg (by rw [hslen]; omega)]
  rw [b64IndexAll_map _ hlt]
  exact b64DecodeQuads_sextets bs h

theorem base64Encode_injOn (bs1 bs2 : List Nat) (h1 : ∀ b ∈ bs1, b < 256)
    (h2 : ∀ b ∈ bs2, b < 256) (heq : base64Encode bs1 = base64Encode bs2) :
    bs1 = bs2 := by
  have e1 := atobBytes_base64Encode bs1 h1
  have e2 := atobBytes_base64Encode bs2 h2
  rw [heq, e2] at e1
  exact (Option.some.injEq _ _ ▸ e1).symm

/-! ### Text decoding of encoded text

`textDecode ∘ utf8Encode` is the identity except that a leading U+FEFF
in the input is consumed as a byte-order mark by the decoder's BOM
stripping. -/

theorem take3_utf8Encode_ne_bom (s : String)
    (h : s.data.head? ≠ some (Char.ofNat 0xFEFF)) :
    (utf8Encode s).take 3 ≠ utf8BOM := by
  cases hd : s.data with
  | nil =>
    rw [show utf8Encode s = [] from by unfold utf8Encode; rw [hd]; rfl]
    decide
  | cons c cs =>
    have hv := char_valid_scalar c
    rw [show utf8Encode s = utf8EncodeChar c.toNat ++
        cs.flatMap (fun x => utf8EncodeChar x.toNat) from by
      unfold utf8Encode; rw [hd]; rfl]
    intro heq
    rcases Nat.lt_or_ge c.toNat 0x80 with h1 | h1
    · rw [show utf8EncodeChar c.toNat = [c.toNat] from by
        unfold utf8EncodeChar; rw [if_pos h1]] at heq
      rw [List.cons_append, List.nil_append, List.take_succ_cons,
        show utf8BOM = 0xEF :: [0xBB, 0xBF] from rfl] at heq
      have := (List.cons.injEq _ _ _ _ ▸ heq).1
      omega
    · rcases Nat.lt_or_ge c.toNat 0x800 with h2 | h2
      · rw [show utf8EncodeChar c.toNat =
            [0xC0 + c.toNat / 64, 0x80 + c.toNat % 64] from by
          unfold utf8EncodeChar; rw [if_neg (by omega), if_pos h2]] at heq
        rw [List.cons_append, List.cons_append, List.nil_append, List.take_succ_cons,
          show utf8BOM = 0xEF :: [0xBB, 0xBF] from rfl] at heq
        have := (List.cons.injEq _ _ _ _ ▸ heq).1
        omega
      · rcases Nat.lt_or_ge c.toNat 0x10000 with h3 | h3
        · rw [show utf8EncodeChar c.toNat = [0xE0 + c.toNat / 4096,
              0x80 + c.toNat / 64 % 64, 0x80 + c.toNat % 64] from by
            unfold utf8EncodeChar
            rw [if_neg (by omega), if_neg (by omega), if_pos h3]] at heq
          rw [List.cons_append, List.cons_append, List.cons_append, List.nil_append,
            List.take_succ_cons, List.take_succ_cons, List.take_succ_cons,
            show utf8BOM = [0xEF, 0xBB, 0xBF] from rfl] at heq
          simp only [List.cons.injEq] at heq
          have hc : c.toNat = 0xFEFF := by omega
          apply h
          rw [hd, show c = Char.ofNat 0xFEFF from by rw [← hc, Char.ofNat_toNat]]
          rfl
        · rw [show utf8EncodeChar c.toNat = [0xF0 + c.toNat / 262144,
              0x80 + c.toNat / 4096 % 64, 0x80 + c.toNat / 64 % 64,
              0x80 + c.toNat % 64] from by
            unfold utf8EncodeChar
            rw [if_neg (by omega), if_neg (by omega), if_neg (by omega)]] at heq
          rw [List.cons_append, List.cons_append, List.cons_append, List.cons_append,
            List.nil_append, List.take_succ_cons,
            show utf8BOM = 0xEF :: [0xBB, 0xBF] from rfl] at heq
          have := (List.cons.injEq _ _ _ _ ▸ heq).1
          omega

theorem map_ofNat_toNat (l : List Char) :
    l.map (fun c => Char.ofNat c.toNat) = l := by
  induction l with
  | nil => rfl
  | cons a t ih => simp [Char.ofNat_toNat, ih]

theorem textDecode_utf8Encode (s : String)
    (h : s.data.head? ≠ some (Char.ofNat 0xFEFF)) :
    textDecode (utf8Encode s) = s := by
  unfold textDecode
  rw [if_neg (take3_utf8Encode_ne_bom s h)]
  rw [show utf8DecodeScalars (utf8Encode s) = s.data.map Char.toNat from
    utf8DecodeScalars_encode_chars s.data]
  rw [List.map_map]
  rw [show (Char.ofNat ∘ Char.toNat) = (fun c => Char.ofNat c.toNat) from rfl]
  rw [map_ofNat_toNat]

/-! ### The confidentiality layer (src/services/encryptionService.ts)

The module's platform dependencies — `crypto.subtle.importKey` +
`crypto.subtle.deriveKey` (PBKDF2) and `crypto.subtle.encrypt` /
`crypto.subtle.decrypt` (AES-GCM with the default 128-bit tag) — are
abstracted as a `CryptoProvider`: an opaque key type, a deterministic
key-derivation function (PBKDF2 over password bytes, salt bytes,
iteration count, hash name, and derived-key length), and the cipher
pair.  AES-GCM contracts used by individual claims are stated as
explicit predicates on a provider.

The module-level mutable `cryptoKey: CryptoKey | null` is threaded as a
`ProcState`.  Calls into the cryptographic provider are recorded as a
`CryptoEvent` trace so ordering claims ("before any cryptographic
operation") are expressible.  The 12-byte random nonce drawn by
`crypto.getRandomValues(new Uint8Array(12))` enters `encrypt` as a
parameter. -/

structure CryptoProvider where
  Key : Type
  deriveKey : List Nat → List Nat → Nat → String → Nat → Key
  subtleEncrypt : Key → List Nat → List Nat → List Nat
  subtleDecrypt : Key → List Nat → List Nat → Option (List Nat)

/-- Events of interest on the cryptographic provider. -/
inductive CryptoEvent
  | keyDerivation
  | cipherEncrypt
  | cipherDecrypt
deriving DecidableEq

/-- The module's state: the cached `cryptoKey` (initially `null`). -/
structure ProcState (P : CryptoProvider) where
  cryptoKey : Option P.Key

/-- Source constant `const SECRET_KEY = 'a-very-secret-key-for-stellar-ai-demo'`. -/
def SECRET_KEY : String := "a-very-secret-key-for-stellar-ai-demo"

/-- Source salt literal `'some-salt-value'` passed to `deriveKey`. -/
def SALT_VALUE : String := "some-salt-value"

/-- Embedding of `getKey()`: return the cached key if present, else
derive a key from the UTF-8 bytes of the hardcoded secret and fixed
salt with 100000 PBKDF2 iterations (SHA-256) at length 256, cache it,
and return it.  The returned trace records whether a derivation was
performed. -/
def getKey (P : CryptoProvider) (st : ProcState P) :
    P.Key × ProcState P × List CryptoEvent :=
  match st.cryptoKey with
  | some k => (k, st, [])
  | none =>
    (P.deriveKey (utf8Encode SECRET_KEY) (utf8Encode SALT_VALUE) 100000 "SHA-256" 256,
     ⟨some (P.deriveKey (utf8Encode SECRET_KEY) (utf8Encode SALT_VALUE) 100000
       "SHA-256" 256)⟩,
     [CryptoEvent.keyDerivation])

/-- The key `getKey` derives on a cold cache. -/
def derivedKey (P : CryptoProvider) : P.Key :=
  P.deriveKey (utf8Encode SECRET_KEY) (utf8Encode SALT_VALUE) 100000 "SHA-256" 256

/-- Embedding of `encrypt(plaintext)` with the random 12-byte `iv` as a
parameter: get the key, UTF-8-encode the plaintext, AES-GCM-encrypt,
prepend the iv, and base64-encode the combined bytes. -/
def encrypt (P : CryptoProvider) (iv : List Nat) (st : ProcState P)
    (plaintext : String) : String × ProcState P × List CryptoEvent :=
  (base64Encode (iv ++ P.subtleEncrypt (getKey P st).1 iv (utf8Encode plaintext)),
   (getKey P st).2.1,
   (getKey P st).2.2 ++ [CryptoEvent.cipherEncrypt])

/-- Decryption failures.  The underlying platform exceptions differ by
cause (`atob` throws `InvalidCharacterError`, `crypto.subtle.decrypt`
rejects with `OperationError`), and `decrypt` propagates them
unwrapped. -/
inductive DecryptError
  | invalidBase64
  | cipherFailure
deriving DecidableEq

/-- Embedding of `decrypt(encryptedBase64)`: get the key (before any
decoding — line order of the source), base64-decode, split the first 12
bytes as iv, AES-GCM-decrypt the remainder, and UTF-8-decode the
result. -/
def decrypt (P : CryptoProvider) (st : ProcState P) (encryptedBase64 : String) :
    Except DecryptError String × ProcState P × List CryptoEvent :=
  match atobBytes encryptedBase64 with
  | none => (Except.error DecryptError.invalidBase64, (getKey P st).2.1,
      (getKey P st).2.2)
  | some encryptedBytes =>
    match P.subtleDecrypt (getKey P st).1 (encryptedBytes.take 12)
        (encryptedBytes.drop 12) with
    | none => (Except.error DecryptError.cipherFailure, (getKey P st).2.1,
        (getKey P st).2.2 ++ [CryptoEvent.cipherDecrypt])
    | some decrypted => (Except.ok (textDecode decrypted), (getKey P st).2.1,
        (getKey P st).2.2 ++ [CryptoEvent.cipherDecrypt])

/-! ### AES-GCM contracts, as predicates on a provider -/

/-- Authenticated decryption inverts encryption under the same key and
nonce. -/
def AEADCorrect (P : CryptoProvider) : Prop :=
  ∀ k iv pt, P.subtleDecrypt k iv (P.subtleEncrypt k iv pt) = some pt

/-- Ciphertexts are byte sequences (values below 256) whenever the
plaintext is. -/
def AEADBounded (P : CryptoProvider) : Prop :=
  ∀ k iv pt, (∀ b ∈ pt, b < 256) → ∀ b ∈ P.subtleEncrypt k iv pt, b < 256

/-- AES-GCM ciphertext length: plaintext length plus the 16-byte tag. -/
def AEADTagLength (P : CryptoProvider) : Prop :=
  ∀ k iv pt, (P.subtleEncrypt k iv pt).length = pt.length + 16

/-- Inputs shorter than the 16-byte tag cannot authenticate. -/
def AEADShortFails (P : CryptoProvider) : Prop :=
  ∀ k iv ct, ct.length < 16 → P.subtleDecrypt k iv ct = none

/-- Tamper evidence: flipping any single byte of `iv ‖ ciphertext` and
re-splitting at offset 12 makes authenticated decryption fail. -/
def AEADFlipRejects (P : CryptoProvider) : Prop :=
  ∀ k iv pt j b, iv.length = 12 → (∀ x ∈ iv, x < 256) → (∀ x ∈ pt, x < 256) →
    b < 256 →
    j < (iv ++ P.subtleEncrypt k iv pt).length →
    b ≠ (iv ++ P.subtleEncrypt k iv pt).getD j 0 →
    P.subtleDecrypt k (((iv ++ P.subtleEncrypt k iv pt).set j b).take 12)
      (((iv ++ P.subtleEncrypt k iv pt).set j b).drop 12) = none

theorem getKey_none (P : CryptoProvider) :
    getKey P ⟨none⟩ =
      (derivedKey P, ⟨some (derivedKey P)⟩, [CryptoEvent.keyDerivation]) := rfl

theorem getKey_some (P : CryptoProvider) (k : P.Key) :
    getKey P ⟨some k⟩ = (k, ⟨some k⟩, []) := rfl

theorem getKey_state (P : CryptoProvider) (st : ProcState P) :
    (getKey P st).2.1 = ⟨some (getKey P st).1⟩ := by
  cases st with
  | mk ck => cases ck <;> rfl

theorem getKey_idem (P : CryptoProvider) (st : ProcState P) :
    getKey P (getKey P st).2.1 = ((getKey P st).1, (getKey P st).2.1, []) := by
  rw [getKey_state]
  rw [getKey_some]

/-! ### List helper lemmas for the tamper-evidence argument -/

theorem sum_set_add (l : List Nat) (i b : Nat) (h : i < l.length) :
    (l.set i b).sum + l.getD i 0 = l.sum + b := by
  induction l generalizing i with
  | nil => simp at h
  | cons a t ih =>
    cases i with
    | zero => simp [List.set, List.getD]; omega
    | succ n =>
      have hn : n < t.length := by simpa using h
      simp only [List.set, List.sum_cons, List.getD_cons_succ]
      have := ih n hn
      omega

theorem getD_lt_bound (l : List Nat) (i : Nat) (hb : ∀ x ∈ l, x < 256)
    (h : i < l.length) : l.getD i 0 < 256 := by
  induction l generalizing i with
  | nil => simp at h
  | cons a t ih =>
    cases i with
    | zero => exact hb a (by simp)
    | succ n =>
      exact ih n (fun x hx => hb x (by simp [hx])) (by simpa using h)

theorem set_getD_self (l : List Nat) (i b : Nat) (h : i < l.length) :
    (l.set i b).getD i 0 = b := by
  induction l generalizing i with
  | nil => simp at h
  | cons a t ih =>
    cases i with
    | zero => rfl
    | succ n => exact ih n (by simpa using h)

theorem take_append_of_len {α : Type} (l₁ l₂ : List α) (n : Nat)
    (h : l₁.length = n) : (l₁ ++ l₂).take n = l₁ := by
  rw [← h]
  exact List.take_left l₁ l₂

theorem drop_append_of_len {α : Type} (l₁ l₂ : List α) (n : Nat)
    (h : l₁.length = n) : (l₁ ++ l₂).drop n = l₂ := by
  rw [← h]
  exact List.drop_left l₁ l₂

/-! ### A concrete provider used to instantiate the abstract cipher

`toyProvider` is a small computable cipher with the structural
properties the AES-GCM contracts require (it offers no actual
cryptographic security, which no computable instance could): the
"ciphertext" is the plaintext followed by a 16-byte tag of checksums of
the plaintext, nonce, and key.  A single-byte change to nonce,
plaintext, or tag changes a checksum comparison, so every contract
predicate is provable for it. -/

/-- 16-byte tag: plaintext checksum, nonce checksum, key checksum,
thirteen fixed bytes. -/
def toyTag (k : Nat) (iv pt : List Nat) : List Nat :=
  [pt.sum % 256, iv.sum % 256, k % 256, 0, 0, 0, 0, 0, 0, 0, 0, 0, 0, 0, 0, 0]

def toyEnc (k : Nat) (iv pt : List Nat) : List Nat := pt ++ toyTag k iv pt

def toyDec (k : Nat) (iv ct : List Nat) : Option (List Nat) :=
  if ct.length < 16 then none
  else if ct.drop (ct.length - 16) = toyTag k iv (ct.take (ct.length - 16)) then
    some (ct.take (ct.length - 16))
  else none

def toyProvider : CryptoProvider :=
  { Key := Nat
    deriveKey := fun pw salt iters _hash len => pw.sum * 3 + salt.sum * 5 + iters + len
    subtleEncrypt := toyEnc
    subtleDecrypt := toyDec }

theorem toyTag_length (k : Nat) (iv pt : List Nat) : (toyTag k iv pt).length = 16 :=
  rfl

theorem toy_correct : AEADCorrect toyProvider := by
  intro k iv pt
  show toyDec k iv (toyEnc k iv pt) = some pt
  unfold toyDec toyEnc
  have hlen : (pt ++ toyTag k iv pt).length = pt.length + 16 := by
    rw [List.length_append, toyTag_length]
  rw [if_neg (by omega)]
  rw [hlen, Nat.add_sub_cancel, take_append_of_len _ _ _ rfl,
    drop_append_of_len _ _ _ rfl, if_pos rfl]

theorem toy_bounded : AEADBounded toyProvider := by
  intro k iv pt hpt b hb
  rcases List.mem_append.mp hb with hm | hm
  · exact hpt b hm
  · unfold toyTag at hm
    simp only [List.mem_cons, List.not_mem_nil, or_false] at hm
    rcases hm with h | h | h | h | h | h | h | h | h | h | h | h | h | h | h | h <;>
      omega

theorem toy_taglength : AEADTagLength toyProvider := by
  intro k iv pt
  show (toyEnc k iv pt).length = pt.length + 16
  unfold toyEnc
  rw [List.length_append, toyTag_length]

theorem toy_shortfails : AEADShortFails toyProvider := by
  intro k iv ct h
  show toyDec k iv ct = none
  unfold toyDec
  rw [if_pos h]

theorem toy_fliprejects : AEADFlipRejects toyProvider := by
  intro k iv pt j b hiv hivb hptb hb hj hne
  show toyDec k (((iv ++ toyEnc k iv pt).set j b).take 12)
    (((iv ++ toyEnc k iv pt).set j b).drop 12) = none
  replace hj : j < (iv ++ toyEnc k iv pt).length := hj
  replace hne : b ≠ (iv ++ toyEnc k iv pt).getD j 0 := hne
  have hctlen : (toyEnc k iv pt).length = pt.length + 16 := by
    unfold toyEnc
    rw [List.length_append, toyTag_length]
  have hjlen : j < 12 + (pt.length + 16) := by
    rw [List.length_append, hiv, hctlen] at hj
    exact hj
  rcases Nat.lt_or_ge j 12 with hA | hA
  · -- flip inside the nonce
    have hset : (iv ++ toyEnc k iv pt).set j b = iv.set j b ++ toyEnc k iv pt := by
      rw [List.set_append, if_pos (by omega)]
    have hlen' : (iv.set j b).length = 12 := by rw [List.length_set]; exact hiv
    rw [hset, take_append_of_len _ _ _ hlen', drop_append_of_len _ _ _ hlen']
    unfold toyDec toyEnc
    have hctlen2 : (pt ++ toyTag k iv pt).length = pt.length + 16 := by
      rw [List.length_append, toyTag_length]
    rw [if_neg (by omega), hctlen2, Nat.add_sub_cancel,
      take_append_of_len _ _ _ rfl, drop_append_of_len _ _ _ rfl]
    rw [if_neg ?hneq]
    case hneq =>
      intro he
      unfold toyTag at he
      simp only [List.cons.injEq, and_true] at he
      have hm := he
      have hsum := sum_set_add iv j b (by omega)
      have hold : iv.getD j 0 < 256 := getD_lt_bound iv j hivb (by omega)
      have holdne : b ≠ iv.getD j 0 := by
        rw [List.getD_append _ _ _ _ (by omega)] at hne
        exact hne
      omega
  · rcases Nat.lt_or_ge j (12 + pt.length) with hB | hB
    · -- flip inside the plaintext part of the ciphertext
      have hset : (iv ++ toyEnc k iv pt).set j b =
          iv ++ ((pt.set (j - 12) b) ++ toyTag k iv pt) := by
        rw [List.set_append, if_neg (by omega), hiv]
        unfold toyEnc
        rw [List.set_append, if_pos (by omega)]
      rw [hset, take_append_of_len _ _ _ hiv, drop_append_of_len _ _ _ hiv]
      unfold toyDec
      have hlen2 : ((pt.set (j - 12) b) ++ toyTag k iv pt).length =
          pt.length + 16 := by
        rw [List.length_append, toyTag_length, List.length_set]
      have hlenset : (pt.set (j - 12) b).length = pt.length := List.length_set _ _ _
      rw [if_neg (by omega), hlen2, Nat.add_sub_cancel,
        take_append_of_len _ _ _ hlenset, drop_append_of_len _ _ _ hlenset]
      rw [if_neg ?hneq2]
      case hneq2 =>
        intro he
        unfold toyTag at he
        simp only [List.cons.injEq, and_true] at he
        have hm := he
        have hsum := sum_set_add pt (j - 12) b (by omega)
        have hold : pt.getD (j - 12) 0 < 256 := getD_lt_bound pt (j - 12) hptb (by omega)
        have holdne : b ≠ pt.getD (j - 12) 0 := by
          rw [List.getD_append_right _ _ _ _ (by omega), hiv] at hne
          unfold toyEnc at hne
          rw [List.getD_append _ _ _ _ (by omega)] at hne
          exact hne
        omega
    · -- flip inside the tag
      have hset : (iv ++ toyEnc k iv pt).set j b =
          iv ++ (pt ++ (toyTag k iv pt).set (j - 12 - pt.length) b) := by
        rw [List.set_append, if_neg (by omega), hiv]
        unfold toyEnc
        rw [List.set_append, if_neg (by omega)]
      rw [hset, take_append_of_len _ _ _ hiv, drop_append_of_len _ _ _ hiv]
      unfold toyDec
      have hlen2 : (pt ++ (toyTag k iv pt).set (j - 12 - pt.length) b).length =
          pt.length + 16 := by
        rw [List.length_append, List.length_set, toyTag_length]
      rw [if_neg (by omega), hlen2, Nat.add_sub_cancel,
        take_append_of_len _ _ _ rfl, drop_append_of_len _ _ _ rfl]
      rw [if_neg ?hneq3]
      case hneq3 =>
        intro he
        have hi : j - 12 - pt.length < 16 := by omega
        have hgd : ((toyTag k iv pt).set (j - 12 - pt.length) b).getD
            (j - 12 - pt.length) 0 = b :=
          set_getD_self _ _ _ (by rw [toyTag_length]; omega)
        rw [he] at hgd
        have holdne : b ≠ (toyTag k iv pt).getD (j - 12 - pt.length) 0 := by
          rw [List.getD_append_right _ _ _ _ (by omega), hiv] at hne
          unfold toyEnc at hne
          rw [List.getD_append_right _ _ _ _ (by omega)] at hne
          exact hne
        exact holdne hgd.symm

/-! ### JSON string arrays: model of `JSON.stringify` / `JSON.parse`

`saveFavorites` stringifies a `string[]` and `loadFavorites` parses the
decrypted text.  `jsonStringify` follows the ECMAScript
`QuoteJSONString` algorithm for arrays of strings (shorthand escapes
for `"` `\` and the five named control characters, `\u00xx` with
lowercase hex for other control characters, everything else literal, no
whitespace).  `jsonParse` is `JSON.parse` restricted to this grammar:
on text that is not a whitespace-free array of JSON strings it returns
`none`, conflating `JSON.parse` throwing with it producing a value that
is not an array of strings (the source does not check the parsed shape,
but no claim distinguishes these, as the only parsed texts come from
`jsonStringify`).  A `\uXXXX` escape denoting a lone surrogate maps to
U+0000 here (Lean strings cannot hold lone surrogates); such escapes
are never produced by `jsonStringify`. -/

def hexDigit (n : Nat) : Char := "0123456789abcdef".data.getD n '0'

def jsonEscapeChar (c : Char) : List Char :=
  if c = '"' then ['\\', '"']
  else if c = '\\' then ['\\', '\\']
  else if c.toNat < 0x20 then
    if c = '\x08' then ['\\', 'b']
    else if c = '\t' then ['\\', 't']
    else if c = '\n' then ['\\', 'n']
    else if c = '\x0C' then ['\\', 'f']
    else if c = '\r' then ['\\', 'r']
    else ['\\', 'u', '0', '0', hexDigit (c.toNat / 16), hexDigit (c.toNat % 16)]
  else [c]

/-- A JSON string literal: quote, escaped characters, quote. -/
def jsonQuote (s : String) : List Char :=
  '"' :: (s.data.flatMap jsonEscapeChar ++ ['"'])

/-- Comma-separated JSON string literals. -/
def jsonElems : List String → List Char
  | [] => []
  | [f] => jsonQuote f
  | f :: f2 :: fs => jsonQuote f ++ (',' :: jsonElems (f2 :: fs))

/-- Model of `JSON.stringify` on a `string[]`. -/
def jsonStringify (favorites : List String) : String :=
  ⟨'[' :: (jsonElems favorites ++ [']'])⟩

def hexVal (c : Char) : Option Nat :=
  if '0' ≤ c ∧ c ≤ '9' then some (c.toNat - '0'.toNat)
  else if 'a' ≤ c ∧ c ≤ 'f' then some (c.toNat - 'a'.toNat + 10)
  else if 'A' ≤ c ∧ c ≤ 'F' then some (c.toNat - 'A'.toNat + 10)
  else none

def jsonUnescape (e : Char) : Option Char :=
  if e = '"' then some '"'
  else if e = '\\' then some '\\'
  else if e = '/' then some '/'
  else if e = 'b' then some '\x08'
  else if e = 'f' then some '\x0C'
  else if e = 'n' then some '\n'
  else if e = 'r' then some '\r'
  else if e = 't' then some '\t'
  else none

/-- Parse the body of a JSON string literal after its opening quote;
returns the content and the characters after the closing quote.  The
fuel argument dominates the recursion depth (every step consumes at
least one character), so length-many units decide every input. -/
def parseJsonStringBodyF : Nat → List Char → Option (List Char × List Char)
  | 0, _ => none
  | _ + 1, [] => none
  | fuel + 1, c :: rest =>
    if c = '"' then some ([], rest)
    else if c = '\\' then
      match rest with
      | [] => none
      | e :: rest2 =>
        if e = 'u' then
          match rest2 with
          | h1 :: h2 :: h3 :: h4 :: rest3 =>
            match hexVal h1, hexVal h2, hexVal h3, hexVal h4 with
            | some v1, some v2, some v3, some v4 =>
              (parseJsonStringBodyF fuel rest3).map (fun r =>
                (Char.ofNat (((v1 * 16 + v2) * 16 + v3) * 16 + v4) :: r.1, r.2))
            | _, _, _, _ => none
          | _ => none
        else
          match jsonUnescape e with
          | none => none
          | some d => (parseJsonStringBodyF fuel rest2).map (fun r => (d :: r.1, r.2))
    else if c.toNat < 0x20 then none
    else (parseJsonStringBodyF fuel rest).map (fun r => (c :: r.1, r.2))

def parseJsonStringBody (l : List Char) : Option (List Char × List Char) :=
  parseJsonStringBodyF l.length l

/-- Parse a non-empty comma-separated sequence of string literals
followed by the closing bracket.  The fuel argument dominates the
recursion depth (each element consumes at least three characters), so
`parseFavElemsF l.length l` decides every input. -/
def parseFavElemsF : Nat → List Char → Option (List String)
  | 0, _ => none
  | _ + 1, [] => none
  | fuel + 1, c :: rest =>
    if c = '"' then
      match parseJsonStringBody rest with
      | none => none
      | some (content, after) =>
        match after with
        | [] => none
        | a :: more =>
          if a = ',' then
            (parseFavElemsF fuel more).map (fun fs => String.mk content :: fs)
          else if a = ']' ∧ more = [] then some [String.mk content]
          else none
    else none

/-- Model of `JSON.parse` restricted to arrays of strings. -/
def jsonParse (s : String) : Option (List String) :=
  match s.data with
  | [] => none
  | c :: rest =>
    if c = '[' then
      if rest = [']'] then some []
      else parseFavElemsF rest.length rest
    else none

theorem hexVal_hexDigit : ∀ n, n < 16 → hexVal (hexDigit n) = some n := by decide

theorem jsonEscapeChar_length_pos (c : Char) : 1 ≤ (jsonEscapeChar c).length := by
  unfold jsonEscapeChar
  split_ifs <;> simp

theorem flatMap_jsonEscapeChar_length (cs : List Char) :
    cs.length ≤ (cs.flatMap jsonEscapeChar).length := by
  induction cs with
  | nil => simp
  | cons c cs ih =>
    simp only [List.flatMap_cons, List.length_append, List.length_cons]
    have := jsonEscapeChar_length_pos c
    omega

theorem parseBodyF_u (m : Nat) (h1 h2 h3 h4 : Char) (w1 w2 w3 w4 : Nat)
    (e1 : hexVal h1 = some w1) (e2 : hexVal h2 = some w2)
    (e3 : hexVal h3 = some w3) (e4 : hexVal h4 = some w4) (rest : List Char) :
    parseJsonStringBodyF (m + 1) ('\\' :: 'u' :: h1 :: h2 :: h3 :: h4 :: rest) =
      (parseJsonStringBodyF m rest).map (fun r =>
        (Char.ofNat (((w1 * 16 + w2) * 16 + w3) * 16 + w4) :: r.1, r.2)) := by
  have base : parseJsonStringBodyF (m + 1) ('\\' :: 'u' :: h1 :: h2 :: h3 :: h4 :: rest) =
      match hexVal h1, hexVal h2, hexVal h3, hexVal h4 with
      | some v1, some v2, some v3, some v4 =>
        (parseJsonStringBodyF m rest).map (fun r =>
          (Char.ofNat (((v1 * 16 + v2) * 16 + v3) * 16 + v4) :: r.1, r.2))
      | _, _, _, _ => none := rfl
  rw [base, e1, e2, e3, e4]

theorem parseBodyF_lit (m : Nat) (c : Char) (hq : ¬c = '"') (hbs : ¬c = '\\')
    (hctl : ¬c.toNat < 0x20) (rest : List Char) :
    parseJsonStringBodyF (m + 1) (c :: rest) =
      (parseJsonStringBodyF m rest).map (fun r => (c :: r.1, r.2)) := by
  simp only [parseJsonStringBodyF]
  rw [if_neg hq, if_neg hbs, if_neg hctl]

theorem parseBodyF_escape (cs : List Char) (rest : List Char) :
    ∀ fuel, cs.length < fuel →
      parseJsonStringBodyF fuel (cs.flatMap jsonEscapeChar ++ ('"' :: rest)) =
        some (cs, rest) := by
  induction cs with
  | nil =>
    intro fuel hf
    cases fuel with
    | zero => omega
    | succ m =>
      simp only [List.flatMap_nil, List.nil_append]
      rfl
  | cons c cs ih =>
    intro fuel hf
    cases fuel with
    | zero => omega
    | succ m =>
    have hm : cs.length < m := by
      simp only [List.length_cons] at hf
      omega
    have ihm := ih m hm
    simp only [List.flatMap_cons, List.append_assoc]
    by_cases hq : c = '"'
    · subst hq
      rw [show jsonEscapeChar '"' = ['\\', '"'] from rfl]
      simp only [List.cons_append, List.nil_append]
      rw [show parseJsonStringBodyF (m + 1)
          ('\\' :: '"' :: (cs.flatMap jsonEscapeChar ++ '"' :: rest)) =
        (parseJsonStringBodyF m (cs.flatMap jsonEscapeChar ++ '"' :: rest)).map
          (fun r => ('"' :: r.1, r.2)) from rfl]
      rw [ihm, Option.map_some']
    · by_cases hbs : c = '\\'
      · subst hbs
        rw [show jsonEscapeChar '\\' = ['\\', '\\'] from rfl]
        simp only [List.cons_append, List.nil_append]
        rw [show parseJsonStringBodyF (m + 1)
            ('\\' :: '\\' :: (cs.flatMap jsonEscapeChar ++ '"' :: rest)) =
          (parseJsonStringBodyF m (cs.flatMap jsonEscapeChar ++ '"' :: rest)).map
            (fun r => ('\\' :: r.1, r.2)) from rfl]
        rw [ihm, Option.map_some']
      · by_cases hctl : c.toNat < 0x20
        · by_cases h8 : c = '\x08'
          · subst h8
            rw [show jsonEscapeChar '\x08' = ['\\', 'b'] from rfl]
            simp only [List.cons_append, List.nil_append]
            rw [show parseJsonStringBodyF (m + 1)
                ('\\' :: 'b' :: (cs.flatMap jsonEscapeChar ++ '"' :: rest)) =
              (parseJsonStringBodyF m (cs.flatMap jsonEscapeChar ++ '"' :: rest)).map
                (fun r => ('\x08' :: r.1, r.2)) from rfl]
            rw [ihm, Option.map_some']
          · by_cases h9 : c = '\t'
            · subst h9
              rw [show jsonEscapeChar '\t' = ['\\', 't'] from rfl]
              simp only [List.cons_append, List.nil_append]
              rw [show parseJsonStringBodyF (m + 1)
                  ('\\' :: 't' :: (cs.flatMap jsonEscapeChar ++ '"' :: rest)) =
                (parseJsonStringBodyF m (cs.flatMap jsonEscapeChar ++ '"' :: rest)).map
                  (fun r => ('\t' :: r.1, r.2)) from rfl]
              rw [ihm, Option.map_some']
            · by_cases hA : c = '\n'
              · subst hA
                rw [show jsonEscapeChar '\n' = ['\\', 'n'] from rfl]
                simp only [List.cons_append, List.nil_append]
                rw [show parseJsonStringBodyF (m + 1)
                    ('\\' :: 'n' :: (cs.flatMap jsonEscapeChar ++ '"' :: rest)) =
                  (parseJsonStringBodyF m (cs.flatMap jsonEscapeChar ++ '"' :: rest)).map
                    (fun r => ('\n' :: r.1, r.2)) from rfl]
                rw [ihm, Option.map_some']
              · by_cases hC : c = '\x0C'
                · subst hC
                  rw [show jsonEscapeChar '\x0C' = ['\\', 'f'] from rfl]
                  simp only [List.cons_append, List.nil_append]
                  rw [show parseJsonStringBodyF (m + 1)
                      ('\\' :: 'f' :: (cs.flatMap jsonEscapeChar ++ '"' :: rest)) =
                    (parseJsonStringBodyF m (cs.flatMap jsonEscapeChar ++ '"' :: rest)).map
                      (fun r => ('\x0C' :: r.1, r.2)) from rfl]
                  rw [ihm, Option.map_some']
                · by_cases hD : c = '\r'
                  · subst hD
                    rw [show jsonEscapeChar '\r' = ['\\', 'r'] from rfl]
                    simp only [List.cons_append, List.nil_append]
                    rw [show parseJsonStringBodyF (m + 1)
                        ('\\' :: 'r' :: (cs.flatMap jsonEscapeChar ++ '"' :: rest)) =
                      (parseJsonStringBodyF m (cs.flatMap jsonEscapeChar ++ '"' :: rest)).map
                        (fun r => ('\r' :: r.1, r.2)) from rfl]
                    rw [ihm, Option.map_some']
                  · rw [show jsonEscapeChar c =
                        ['\\', 'u', '0', '0', hexDigit (c.toNat / 16),
                          hexDigit (c.toNat % 16)] from by
                      unfold jsonEscapeChar
                      rw [if_neg hq, if_neg hbs, if_pos hctl, if_neg h8, if_neg h9,
                        if_neg hA, if_neg hC, if_neg hD]]
                    simp only [List.cons_append, List.nil_append]
                    rw [parseBodyF_u m '0' '0' (hexDigit (c.toNat / 16))
                      (hexDigit (c.toNat % 16)) 0 0 (c.toNat / 16) (c.toNat % 16)
                      rfl rfl (hexVal_hexDigit _ (by omega)) (hexVal_hexDigit _ (by omega))
                      (cs.flatMap jsonEscapeChar ++ '"' :: rest)]
                    rw [ihm, Option.map_some']
                    rw [show ((0 * 16 + 0) * 16 + c.toNat / 16) * 16 + c.toNat % 16 =
                      c.toNat from by omega]
                    rw [Char.ofNat_toNat]
        · rw [show jsonEscapeChar c = [c] from by
            unfold jsonEscapeChar
            rw [if_neg hq, if_neg hbs, if_neg hctl]]
          simp only [List.cons_append, List.nil_append]
          rw [parseBodyF_lit m c hq hbs hctl]
          rw [ihm, Option.map_some']

theorem parseJsonStringBody_escape (cs : List Char) (rest : List Char) :
    parseJsonStringBody (cs.flatMap jsonEscapeChar ++ ('"' :: rest)) =
      some (cs, rest) := by
  unfold parseJsonStringBody
  apply parseBodyF_escape
  have := flatMap_jsonEscapeChar_length cs
  rw [List.length_append, List.length_cons]
  omega

theorem jsonElems_length_ge (favs : List String) :
    favs.length ≤ (jsonElems favs).length + 1 := by
  induction favs using jsonElems.induct with
  | case1 => simp [jsonElems]
  | case2 f => simp [jsonElems, jsonQuote]
  | case3 f f2 fs ih =>
    show (f :: f2 :: fs).length ≤
      (jsonQuote f ++ (',' :: jsonElems (f2 :: fs))).length + 1
    rw [List.length_append]
    simp only [List.length_cons] at ih ⊢
    omega

theorem parseFavElemsF_elems (favs : List String) (hf : favs ≠ []) :
    ∀ fuel, favs.length ≤ fuel →
      parseFavElemsF fuel (jsonElems favs ++ [']']) = some favs := by
  induction favs using jsonElems.induct with
  | case1 => exact absurd rfl hf
  | case2 f =>
    intro fuel hfl
    cases fuel with
    | zero => simp at hfl
    | succ m =>
      show parseFavElemsF (m + 1) (jsonQuote f ++ [']']) = some [f]
      unfold jsonQuote
      simp only [List.cons_append, List.append_assoc, List.nil_append,
        List.singleton_append]
      have hstep : parseFavElemsF (m + 1)
          ('"' :: (f.data.flatMap jsonEscapeChar ++ '"' :: [']'])) =
          match parseJsonStringBody (f.data.flatMap jsonEscapeChar ++ '"' :: [']']) with
          | none => none
          | some (content, after) =>
            match after with
            | [] => none
            | a :: more =>
              if a = ',' then
                (parseFavElemsF m more).map (fun fs => String.mk content :: fs)
              else if a = ']' ∧ more = [] then some [String.mk content]
              else none := rfl
      rw [hstep, parseJsonStringBody_escape f.data [']']]
      rfl
  | case3 f f2 fs ih =>
    intro fuel hfl
    cases fuel with
    | zero => simp at hfl
    | succ m =>
      show parseFavElemsF (m + 1)
        ((jsonQuote f ++ (',' :: jsonElems (f2 :: fs))) ++ [']']) = some (f :: f2 :: fs)
      unfold jsonQuote
      simp only [List.cons_append, List.append_assoc, List.nil_append,
        List.singleton_append]
      have hstep : parseFavElemsF (m + 1)
          ('"' :: (f.data.flatMap jsonEscapeChar ++
            '"' :: (',' :: (jsonElems (f2 :: fs) ++ [']'])))) =
          match parseJsonStringBody (f.data.flatMap jsonEscapeChar ++
            '"' :: (',' :: (jsonElems (f2 :: fs) ++ [']']))) with
          | none => none
          | some (content, after) =>
            match after with
            | [] => none
            | a :: more =>
              if a = ',' then
                (parseFavElemsF m more).map (fun fs => String.mk content :: fs)
              else if a = ']' ∧ more = [] then some [String.mk content]
              else none := rfl
      rw [hstep,
        parseJsonStringBody_escape f.data (',' :: (jsonElems (f2 :: fs) ++ [']']))]
      show (if (',' : Char) = ',' then
          (parseFavElemsF m (jsonElems (f2 :: fs) ++ [']'])).map
            (fun fs2 => String.mk f.data :: fs2)
        else if (',' : Char) = ']' ∧ jsonElems (f2 :: fs) ++ [']'] = [] then
          some [String.mk f.data]
        else none) = some (f :: f2 :: fs)
      rw [if_pos rfl]
      rw [ih (by simp) m (by simp only [List.length_cons] at hfl ⊢; omega)]
      rfl

theorem jsonParse_stringify (favs : List String) :
    jsonParse (jsonStringify favs) = some favs := by
  unfold jsonParse jsonStringify
  show (match '[' :: (jsonElems favs ++ [']']) with
    | [] => none
    | c :: rest =>
      if c = '[' then
        if rest = [']'] then some []
        else parseFavElemsF rest.length rest
      else none) = some favs
  cases favs with
  | nil =>
    show (if ('[' : Char) = '[' then
      if ([']'] : List Char) = [']'] then some [] else
        parseFavElemsF ([']'] : List Char).length [']'] else none) = some []
    rfl
  | cons f fs =>
    show (if ('[' : Char) = '[' then
      if jsonElems (f :: fs) ++ [']'] = [']'] then some []
      else parseFavElemsF (jsonElems (f :: fs) ++ [']']).length
        (jsonElems (f :: fs) ++ [']'])
      else none) = some (f :: fs)
    rw [if_pos rfl]
    have hq : ∃ t, jsonElems (f :: fs) = '"' :: t := by
      cases fs with
      | nil => exact ⟨_, rfl⟩
      | cons f2 fs2 => exact ⟨_, rfl⟩
    rcases hq with ⟨t, ht⟩
    rw [if_neg (by
      rw [ht]
      intro he
      have hh := (List.cons.injEq _ _ _ _ ▸ he).1
      exact absurd hh (by decide))]
    apply parseFavElemsF_elems (f :: fs) (by simp)
    have := jsonElems_length_ge (f :: fs)
    rw [List.length_append]
    simp only [List.length_cons, List.length_nil] at this ⊢
    omega

/-! ### The simulated cloud favorites store
    (src/services/githubService.ts)

`localStorage` is modelled as an association list with newest-first
lookup, which is observationally the string-keyed map the browser
provides.  `console.log`/`console.error` calls and the simulated
network delay have no observable effect on the modelled state and are
omitted. -/

abbrev Storage := List (String × String)

/-- Model of `localStorage.setItem`. -/
def setItem (store : Storage) (k v : String) : Storage := (k, v) :: store

/-- Model of `localStorage.getItem` (`none` for the `null` miss). -/
def getItem (store : Storage) (k : String) : Option String :=
  (store.find? (fun p => p.1 == k)).map (fun p => p.2)

/-- Embedding of `saveFavorites(favorites, token)`: with an empty token
it logs and returns, touching nothing; otherwise it encrypts
`JSON.stringify(favorites)` and stores the blob under
`'github_storage_' + token`. -/
def saveFavorites (P : CryptoProvider) (iv : List Nat) (favorites : List String)
    (token : String) (st : ProcState P) (store : Storage) : ProcState P × Storage :=
  if token = "" then (st, store)
  else
    ((encrypt P iv st (jsonStringify favorites)).2.1,
     setItem store ("github_storage_" ++ token)
       (encrypt P iv st (jsonStringify favorites)).1)

/-- Embedding of `loadFavorites(token)`: `null` (here `none`) for an
empty token, a missing stored blob, or any decrypt/parse failure
(caught by the source's `try`/`catch`); otherwise the parsed favorites
list. -/
def loadFavorites (P : CryptoProvider) (token : String) (st : ProcState P)
    (store : Storage) : Option (List String) × ProcState P :=
  if token = "" then (none, st)
  else
    match getItem store ("github_storage_" ++ token) with
    | none => (none, st)
    | some encryptedData =>
      match decrypt P st encryptedData with
      | (Except.error _, st2, _) => (none, st2)
      | (Except.ok decryptedJson, st2, _) => (jsonParse decryptedJson, st2)

/-! ### Unfolding lemmas for `decrypt` and the core round trip -/

theorem encrypt_def (P : CryptoProvider) (iv : List Nat) (st : ProcState P)
    (s : String) :
    encrypt P iv st s =
      (base64Encode (iv ++ P.subtleEncrypt (getKey P st).1 iv (utf8Encode s)),
       (getKey P st).2.1, (getKey P st).2.2 ++ [CryptoEvent.cipherEncrypt]) := rfl

theorem decrypt_of_atob_none (P : CryptoProvider) (st : ProcState P) (s : String)
    (h : atobBytes s = none) :
    decrypt P st s = (Except.error DecryptError.invalidBase64,
      (getKey P st).2.1, (getKey P st).2.2) := by
  unfold decrypt
  rw [h]

theorem decrypt_of_dec_none (P : CryptoProvider) (st : ProcState P) (s : String)
    (bytes : List Nat) (h : atobBytes s = some bytes)
    (hd : P.subtleDecrypt (getKey P st).1 (bytes.take 12) (bytes.drop 12) = none) :
    decrypt P st s = (Except.error DecryptError.cipherFailure,
      (getKey P st).2.1, (getKey P st).2.2 ++ [CryptoEvent.cipherDecrypt]) := by
  unfold decrypt
  rw [h]
  show (match P.subtleDecrypt (getKey P st).1 (bytes.take 12) (bytes.drop 12) with
    | none => (Except.error DecryptError.cipherFailure, (getKey P st).2.1,
        (getKey P st).2.2 ++ [CryptoEvent.cipherDecrypt])
    | some decrypted => (Except.ok (textDecode decrypted), (getKey P st).2.1,
        (getKey P st).2.2 ++ [CryptoEvent.cipherDecrypt])) = _
  rw [hd]

theorem decrypt_of_dec_some (P : CryptoProvider) (st : ProcState P) (s : String)
    (bytes pt : List Nat) (h : atobBytes s = some bytes)
    (hd : P.subtleDecrypt (getKey P st).1 (bytes.take 12) (bytes.drop 12) = some pt) :
    decrypt P st s = (Except.ok (textDecode pt),
      (getKey P st).2.1, (getKey P st).2.2 ++ [CryptoEvent.cipherDecrypt]) := by
  unfold decrypt
  rw [h]
  show (match P.subtleDecrypt (getKey P st).1 (bytes.take 12) (bytes.drop 12) with
    | none => (Except.error DecryptError.cipherFailure, (getKey P st).2.1,
        (getKey P st).2.2 ++ [CryptoEvent.cipherDecrypt])
    | some decrypted => (Except.ok (textDecode decrypted), (getKey P st).2.1,
        (getKey P st).2.2 ++ [CryptoEvent.cipherDecrypt])) = _
  rw [hd]

theorem getKey_fst_idem (P : CryptoProvider) (st : ProcState P) :
    (getKey P (getKey P st).2.1).1 = (getKey P st).1 :=
  congrArg (fun t => t.1) (getKey_idem P st)

/-- The blob produced by `encrypt` decodes to nonce ‖ ciphertext. -/
theorem atob_encrypt (P : CryptoProvider) (hB : AEADBounded P) (st : ProcState P)
    (iv : List Nat) (hivb : ∀ b ∈ iv, b < 256) (s : String) :
    atobBytes (encrypt P iv st s).1 =
      some (iv ++ P.subtleEncrypt (getKey P st).1 iv (utf8Encode s)) := by
  rw [encrypt_def]
  apply atobBytes_base64Encode
  intro b hb
  rcases List.mem_append.mp hb with hm | hm
  · exact hivb b hm
  · exact hB _ _ _ (utf8Encode_lt_256 s) b hm

/-- Core round trip at the byte level: decrypting a fresh blob in the
post-encryption state recovers `textDecode (utf8Encode s)`. -/
theorem decrypt_encrypt_core (P : CryptoProvider) (hC : AEADCorrect P)
    (hB : AEADBounded P) (st : ProcState P) (iv : List Nat) (hiv : iv.length = 12)
    (hivb : ∀ b ∈ iv, b < 256) (s : String) :
    decrypt P (encrypt P iv st s).2.1 (encrypt P iv st s).1 =
      (Except.ok (textDecode (utf8Encode s)), (getKey P st).2.1,
        [CryptoEvent.cipherDecrypt]) := by
  have hatob : atobBytes (encrypt P iv st s).1 =
      some (iv ++ P.subtleEncrypt (getKey P st).1 iv (utf8Encode s)) :=
    atob_encrypt P hB st iv hivb s
  have hct : P.subtleEncrypt (getKey P st).1 iv (utf8Encode s) =
      P.subtleEncrypt (getKey P (encrypt P iv st s).2.1).1 iv (utf8Encode s) := by
    rw [show (encrypt P iv st s).2.1 = (getKey P st).2.1 from rfl, getKey_fst_idem]
  have hdec : P.subtleDecrypt (getKey P (encrypt P iv st s).2.1).1
      ((iv ++ P.subtleEncrypt (getKey P st).1 iv (utf8Encode s)).take 12)
      ((iv ++ P.subtleEncrypt (getKey P st).1 iv (utf8Encode s)).drop 12) =
      some (utf8Encode s) := by
    rw [take_append_of_len _ _ _ hiv, drop_append_of_len _ _ _ hiv]
    rw [show (encrypt P iv st s).2.1 = (getKey P st).2.1 from rfl, getKey_fst_idem]
    exact hC _ _ _
  rw [decrypt_of_dec_some P (encrypt P iv st s).2.1 (encrypt P iv st s).1
    _ _ hatob hdec]
  rw [show (encrypt P iv st s).2.1 = (getKey P st).2.1 from rfl]
  rw [getKey_idem]
  rfl

/-- General round trip: a blob from `encrypt` at state `st` decrypts at
any state `st'` that resolves to the same key. -/
theorem decrypt_encrypt_keyeq (P : CryptoProvider) (hC : AEADCorrect P)
    (hB : AEADBounded P) (st st' : ProcState P)
    (hkey : (getKey P st').1 = (getKey P st).1) (iv : List Nat)
    (hiv : iv.length = 12) (hivb : ∀ b ∈ iv, b < 256) (s : String) :
    decrypt P st' (encrypt P iv st s).1 =
      (Except.ok (textDecode (utf8Encode s)), (getKey P st').2.1,
        (getKey P st').2.2 ++ [CryptoEvent.cipherDecrypt]) := by
  have hatob : atobBytes (encrypt P iv st s).1 =
      some (iv ++ P.subtleEncrypt (getKey P st).1 iv (utf8Encode s)) :=
    atob_encrypt P hB st iv hivb s
  have hdec : P.subtleDecrypt (getKey P st').1
      ((iv ++ P.subtleEncrypt (getKey P st).1 iv (utf8Encode s)).take 12)
      ((iv ++ P.subtleEncrypt (getKey P st).1 iv (utf8Encode s)).drop 12) =
      some (utf8Encode s) := by
    rw [take_append_of_len _ _ _ hiv, drop_append_of_len _ _ _ hiv, hkey]
    exact hC _ _ _
  exact decrypt_of_dec_some P st' (encrypt P iv st s).1 _ _ hatob hdec

/-- Module states reachable in a run: the cache is empty or holds the
canonical derived key. -/
def GoodState (P : CryptoProvider) (st : ProcState P) : Prop :=
  st.cryptoKey = none ∨ st.cryptoKey = some (derivedKey P)

theorem getKey_fst_of_good (P : CryptoProvider) (st : ProcState P)
    (h : GoodState P st) : (getKey P st).1 = derivedKey P := by
  cases st with
  | mk ck =>
    rcases h with h | h <;> simp only at h <;> subst h <;> rfl

theorem goodState_getKey (P : CryptoProvider) (st : ProcState P)
    (h : GoodState P st) : GoodState P (getKey P st).2.1 := by
  rw [getKey_state]
  right
  show some (getKey P st).1 = some (derivedKey P)
  rw [getKey_fst_of_good P st h]

theorem cipherDecrypt_not_mem_getKey (P : CryptoProvider) (st : ProcState P) :
    CryptoEvent.cipherDecrypt ∉ (getKey P st).2.2 := by
  cases st with
  | mk ck => cases ck <;> simp [getKey]

theorem getItem_setItem (store : Storage) (k v : String) :
    getItem (setItem store k v) k = some v := by
  unfold getItem setItem
  rw [List.find?_cons_of_pos _ (by simp)]
  rfl

theorem base64Encode_length (bs : List Nat) :
    (base64Encode bs).length =
      (4 * bs.length + 2) / 3 + (3 - bs.length % 3) % 3 := by
  show ((b64Sextets bs).map b64Char ++
    List.replicate ((3 - bs.length % 3) % 3) '=').length = _
  rw [List.length_append, List.length_map, b64Sextets_length, List.length_replicate]

theorem set_bounds (l : List Nat) (j b : Nat) (hl : ∀ x ∈ l, x < 256)
    (hb : b < 256) : ∀ x ∈ l.set j b, x < 256 := by
  intro x hx
  rcases List.mem_or_eq_of_mem_set hx with h | h
  · exact hl x h
  · omega

theorem jsonStringify_head (favs : List String) :
    (jsonStringify favs).data.head? ≠ some (Char.ofNat 0xFEFF) := by
  intro h
  have : '[' = Char.ofNat 0xFEFF := by
    have hh : some '[' = some (Char.ofNat 0xFEFF) := h
    exact Option.some.injEq _ _ ▸ hh
  exact absurd this (by decide)

/-- A fixed 12-byte nonce used to instantiate witnesses (standing in
for one concrete draw of `crypto.getRandomValues`). -/
def nonce0 : List Nat := [0, 0, 0, 0, 0, 0, 0, 0, 0, 0, 0, 0]

/-! ### Claims -/

/-- C10: for every favorites array, `saveFavorites` with an empty token
resolves normally and leaves both the module state and the backing
storage completely unchanged — no storage key is written or
modified. -/
theorem C10_saveFavorites_empty_token_noop (P : CryptoProvider) (iv : List Nat)
    (favs : List String) (st : ProcState P) (store : Storage) :
    saveFavorites P iv favs "" st store = (st, store) := by
  unfold saveFavorites
  rw [if_pos rfl]

/-- C8: with a non-empty token whose stored blob makes `decrypt` fail,
`loadFavorites` catches the failure and resolves to `none` (the
caller's `null`) instead of propagating the error. -/
theorem C8_loadFavorites_null_on_decrypt_failure (P : CryptoProvider)
    (token : String) (st : ProcState P) (store : Storage) (blob : String)
    (e : DecryptError) (ht : token ≠ "")
    (hblob : getItem store ("github_storage_" ++ token) = some blob)
    (hfail : (decrypt P st blob).1 = Except.error e) :
    (loadFavorites P token st store).1 = none := by
  unfold loadFavorites
  rw [if_neg ht, hblob]
  show (match decrypt P st blob with
    | (Except.error _, st2, _) => ((none : Option (List String)), st2)
    | (Except.ok decryptedJson, st2, _) => (jsonParse decryptedJson, st2)).1 = none
  rcases hdec : decrypt P st blob with ⟨res, st2, ev⟩
  cases res with
  | error e2 => rfl
  | ok dj =>
    rw [hdec] at hfail
    exact absurd hfail (by simp)

/-- C8 witness at a concrete failing blob. -/
theorem C8_loadFavorites_null_on_decrypt_failure_witness :
    ("t" : String) ≠ "" ∧
    getItem (setItem [] "github_storage_t" "####") "github_storage_t" = some "####" ∧
    (decrypt toyProvider ⟨none⟩ "####").1 = Except.error DecryptError.invalidBase64 ∧
    (loadFavorites toyProvider "t" ⟨none⟩
      (setItem [] "github_storage_t" "####")).1 = none :=
  ⟨by decide, rfl, rfl,
    C8_loadFavorites_null_on_decrypt_failure toyProvider "t" ⟨none⟩
      (setItem [] "github_storage_t" "####") "####" DecryptError.invalidBase64
      (by decide) rfl rfl⟩

/-- C6 counterexample: the claim lists "the decrypted bytes are not
valid UTF-8" among the cases where `decrypt` fails, and says the
sub-cases are a single undistinguished failure signal.  Concretely: a
well-authenticated blob whose plaintext byte 0xFF is not valid UTF-8
decrypts successfully to the replacement character (the non-fatal
`TextDecoder` never throws), and the base64 and cipher failure cases
surface as distinct errors (distinct platform exception types). -/
theorem C6_counterexample :
    (decrypt toyProvider ⟨none⟩ (base64Encode (nonce0 ++
      toyProvider.subtleEncrypt (derivedKey toyProvider) nonce0 [255]))).1 =
      Except.ok "�" ∧
    utf8DecodeScalars [255] = [0xFFFD] ∧
    (decrypt toyProvider ⟨none⟩ "####").1 = Except.error DecryptError.invalidBase64 ∧
    (decrypt toyProvider ⟨none⟩ (base64Encode [1, 2, 3])).1 =
      Except.error DecryptError.cipherFailure ∧
    DecryptError.invalidBase64 ≠ DecryptError.cipherFailure :=
  ⟨rfl, rfl, rfl, rfl, by decide⟩

/-- C6 (amended): `decrypt` fails exactly when base64 decoding fails
(`invalidBase64`) or authenticated decryption fails (`cipherFailure`);
any blob decoding to fewer than 12 + 16 bytes — in particular fewer
than 12 — fails with the defined `cipherFailure` error rather than an
unrelated exception; when authenticated decryption succeeds, `decrypt`
always succeeds, decoding non-UTF-8 bytes non-fatally with U+FFFD
replacement characters; the two failure kinds are distinct errors. -/
theorem C6_failure_characterization (P : CryptoProvider) (hS : AEADShortFails P)
    (st : ProcState P) (blob : String) :
    (atobBytes blob = none →
      (decrypt P st blob).1 = Except.error DecryptError.invalidBase64) ∧
    (∀ bytes, atobBytes blob = some bytes →
      P.subtleDecrypt (getKey P st).1 (bytes.take 12) (bytes.drop 12) = none →
      (decrypt P st blob).1 = Except.error DecryptError.cipherFailure) ∧
    (∀ bytes pt, atobBytes blob = some bytes →
      P.subtleDecrypt (getKey P st).1 (bytes.take 12) (bytes.drop 12) = some pt →
      (decrypt P st blob).1 = Except.ok (textDecode pt)) ∧
    (∀ bytes, atobBytes blob = some bytes → bytes.length < 28 →
      (decrypt P st blob).1 = Except.error DecryptError.cipherFailure) := by
  refine ⟨?_, ?_, ?_, ?_⟩
  · intro h
    rw [decrypt_of_atob_none P st blob h]
  · intro bytes h hd
    rw [decrypt_of_dec_none P st blob bytes h hd]
  · intro bytes pt h hd
    rw [decrypt_of_dec_some P st blob bytes pt h hd]
  · intro bytes h hlen
    rw [decrypt_of_dec_none P st blob bytes h
      (hS _ _ _ (by rw [List.length_drop]; omega))]

/-- C6 witness: the characterization applied to a concrete short blob
(three decoded bytes, fewer than 12). -/
theorem C6_failure_characterization_witness :
    AEADShortFails toyProvider ∧
    atobBytes (base64Encode [1, 2, 3]) = some [1, 2, 3] ∧
    (decrypt toyProvider ⟨none⟩ (base64Encode [1, 2, 3])).1 =
      Except.error DecryptError.cipherFailure :=
  ⟨toy_shortfails, rfl,
    (C6_failure_characterization toyProvider toy_shortfails ⟨none⟩
      (base64Encode [1, 2, 3])).2.2.2 [1, 2, 3] rfl (by decide)⟩

/-- C7 counterexample: the claim says a blob with characters outside
the base64 alphabet fails with a decode error before any cryptographic
operation.  Concretely: (a) `decrypt` calls `getKey()` before `atob`,
so on a cold cache the PBKDF2 key derivation runs even though the blob
"####" then fails decoding; (b) `atob` is forgiving-base64, which
strips ASCII whitespace, so a blob containing a space — a character
outside the base64 alphabet — can decrypt successfully. -/
theorem C7_counterexample :
    (decrypt toyProvider ⟨none⟩ "####").1 = Except.error DecryptError.invalidBase64 ∧
    (decrypt toyProvider ⟨none⟩ "####").2.2 = [CryptoEvent.keyDerivation] ∧
    (' ' ∈ (" " ++ (encrypt toyProvider nonce0 ⟨none⟩ "hi").1).data ∧
      b64Index ' ' = none ∧
      (decrypt toyProvider ⟨none⟩
        (" " ++ (encrypt toyProvider nonce0 ⟨none⟩ "hi").1)).1 = Except.ok "hi") :=
  ⟨rfl, rfl, by decide, rfl, rfl⟩

/-- C7 (amended): for every input containing a character that is
outside the base64 alphabet, not `=`, and not ASCII whitespace
(whitespace is stripped by forgiving-base64 rather than rejected),
`decrypt` fails with the decode error and never attempts cipher
decryption; key derivation, however, happens first — `decrypt` obtains
the key before decoding — so its trace is exactly `getKey`'s. -/
theorem C7_decode_error_before_cipher (P : CryptoProvider) (st : ProcState P)
    (s : String) (c : Char) (hc : c ∈ s.data) (hw : isAsciiWs c = false)
    (hpad : c ≠ '=') (hidx : b64Index c = none) :
    (decrypt P st s).1 = Except.error DecryptError.invalidBase64 ∧
    CryptoEvent.cipherDecrypt ∉ (decrypt P st s).2.2 ∧
    (decrypt P st s).2.2 = (getKey P st).2.2 := by
  have hatob := atobBytes_badchar s c hc hw hpad hidx
  rw [decrypt_of_atob_none P st s hatob]
  exact ⟨rfl, cipherDecrypt_not_mem_getKey P st, rfl⟩

/-- C7 witness at the concrete blob "####". -/
theorem C7_decode_error_before_cipher_witness :
    ('#' ∈ ("####" : String).data ∧ isAsciiWs '#' = false ∧ ('#' : Char) ≠ '=' ∧
      b64Index '#' = none) ∧
    ((decrypt toyProvider ⟨none⟩ "####").1 =
        Except.error DecryptError.invalidBase64 ∧
      CryptoEvent.cipherDecrypt ∉ (decrypt toyProvider ⟨none⟩ "####").2.2 ∧
      (decrypt toyProvider ⟨none⟩ "####").2.2 = (getKey toyProvider ⟨none⟩).2.2) :=
  ⟨⟨by decide, by decide, by decide, by decide⟩,
    C7_decode_error_before_cipher toyProvider ⟨none⟩ "####" '#' (by decide)
      (by decide) (by decide) (by decide)⟩

/-- C1 counterexample: the round trip is not the identity on every
UTF-8 string.  For a plaintext beginning with U+FEFF, its UTF-8
encoding starts with the byte-order mark EF BB BF, which the
decrypting `TextDecoder` (default `ignoreBOM: false`) strips, so
`decrypt(encrypt("\uFEFF"))` returns the empty string. -/
theorem C1_counterexample :
    (decrypt toyProvider (encrypt toyProvider nonce0 ⟨none⟩ "\uFEFF").2.1
      (encrypt toyProvider nonce0 ⟨none⟩ "\uFEFF").1).1 = Except.ok "" ∧
    ("" : String) ≠ "\uFEFF" :=
  ⟨rfl, by decide⟩

/-- C1 (amended): for every UTF-8 string `s` that does not begin with
U+FEFF (including the empty string and strings with multi-byte
characters), `decrypt(encrypt(s))` returns exactly `s`; a leading
U+FEFF is consumed as a byte-order mark by the decoder. -/
theorem C1_decrypt_encrypt_roundtrip (P : CryptoProvider) (hC : AEADCorrect P)
    (hB : AEADBounded P) (st : ProcState P) (iv : List Nat) (hiv : iv.length = 12)
    (hivb : ∀ b ∈ iv, b < 256) (s : String)
    (hbom : s.data.head? ≠ some (Char.ofNat 0xFEFF)) :
    (decrypt P (encrypt P iv st s).2.1 (encrypt P iv st s).1).1 = Except.ok s := by
  rw [decrypt_encrypt_keyeq P hC hB st (encrypt P iv st s).2.1
    (getKey_fst_idem P st) iv hiv hivb s]
  show Except.ok (textDecode (utf8Encode s)) = Except.ok s
  rw [textDecode_utf8Encode s hbom]

/-- C1 witness: round trip at a multi-byte plaintext. -/
theorem C1_decrypt_encrypt_roundtrip_witness :
    AEADCorrect toyProvider ∧
    (decrypt toyProvider (encrypt toyProvider nonce0 ⟨none⟩ "héllo✓").2.1
      (encrypt toyProvider nonce0 ⟨none⟩ "héllo✓").1).1 = Except.ok "héllo✓" :=
  ⟨toy_correct,
    C1_decrypt_encrypt_roundtrip toyProvider toy_correct toy_bounded ⟨none⟩ nonce0
      rfl (by decide) "héllo✓" (by decide)⟩

/-- C2: every blob is the base64 encoding of the 12-byte nonce followed
by the ciphertext-plus-tag, with the nonce in the first 12 decoded
bytes; for the concrete input `["char-1","char-7"]` the blob has at
least 16 characters, its decoded length is at least 12 + 16, and
decrypting it returns the input. -/
theorem C2_blob_structure (P : CryptoProvider) (hC : AEADCorrect P)
    (hB : AEADBounded P) (hT : AEADTagLength P) (st : ProcState P) (iv : List Nat)
    (hiv : iv.length = 12) (hivb : ∀ b ∈ iv, b < 256) :
    (∀ s : String, atobBytes (encrypt P iv st s).1 =
        some (iv ++ P.subtleEncrypt (getKey P st).1 iv (utf8Encode s)) ∧
      (iv ++ P.subtleEncrypt (getKey P st).1 iv (utf8Encode s)).take 12 = iv) ∧
    16 ≤ (encrypt P iv st "[\"char-1\",\"char-7\"]").1.length ∧
    (∀ bytes, atobBytes (encrypt P iv st "[\"char-1\",\"char-7\"]").1 = some bytes →
      12 + 16 ≤ bytes.length) ∧
    (decrypt P (encrypt P iv st "[\"char-1\",\"char-7\"]").2.1
      (encrypt P iv st "[\"char-1\",\"char-7\"]").1).1 =
      Except.ok "[\"char-1\",\"char-7\"]" := by
  have hptlen : (utf8Encode "[\"char-1\",\"char-7\"]").length = 19 := rfl
  have hctlen : (P.subtleEncrypt (getKey P st).1 iv
      (utf8Encode "[\"char-1\",\"char-7\"]")).length = 19 + 16 := by
    rw [hT, hptlen]
  refine ⟨?_, ?_, ?_, ?_⟩
  · intro s
    exact ⟨atob_encrypt P hB st iv hivb s, take_append_of_len _ _ _ hiv⟩
  · rw [show (encrypt P iv st "[\"char-1\",\"char-7\"]").1 =
      base64Encode (iv ++ P.subtleEncrypt (getKey P st).1 iv
        (utf8Encode "[\"char-1\",\"char-7\"]")) from rfl]
    rw [base64Encode_length, List.length_append, hiv, hctlen]
    omega
  · intro bytes hb
    rw [atob_encrypt P hB st iv hivb _] at hb
    have hbeq : bytes = iv ++ P.subtleEncrypt (getKey P st).1 iv
        (utf8Encode "[\"char-1\",\"char-7\"]") := (Option.some.injEq _ _ ▸ hb).symm
    rw [hbeq, List.length_append, hiv, hctlen]
    omega
  · rw [decrypt_encrypt_keyeq P hC hB st
      (encrypt P iv st "[\"char-1\",\"char-7\"]").2.1 (getKey_fst_idem P st)
      iv hiv hivb "[\"char-1\",\"char-7\"]"]
    show Except.ok (textDecode (utf8Encode "[\"char-1\",\"char-7\"]")) = _
    rw [textDecode_utf8Encode _ (by decide)]

/-- C2 witness: the concrete scenario under the instantiated cipher. -/
theorem C2_blob_structure_witness :
    AEADTagLength toyProvider ∧
    16 ≤ (encrypt toyProvider nonce0 ⟨none⟩ "[\"char-1\",\"char-7\"]").1.length ∧
    (decrypt toyProvider (encrypt toyProvider nonce0 ⟨none⟩
        "[\"char-1\",\"char-7\"]").2.1
      (encrypt toyProvider nonce0 ⟨none⟩ "[\"char-1\",\"char-7\"]").1).1 =
      Except.ok "[\"char-1\",\"char-7\"]" :=
  ⟨toy_taglength,
    (C2_blob_structure toyProvider toy_correct toy_bounded toy_taglength ⟨none⟩
      nonce0 rfl (by decide)).2.1,
    (C2_blob_structure toyProvider toy_correct toy_bounded toy_taglength ⟨none⟩
      nonce0 rfl (by decide)).2.2.2⟩

/-- C3: `getKey` derives the key from the fixed passphrase and salt via
PBKDF2 (100000 iterations, SHA-256, 256-bit AES-GCM key) exactly once
— a cold call performs the derivation and caches, every later call
returns the cached key with no further derivation — and a blob
encrypted at one reachable state still decrypts successfully at any
later reachable state (for every plaintext, BOM-leading or not): the
decryption result is `Except.ok` of a value determined by the
plaintext alone, independent of the two states, because both resolve
to the one derived key. -/
theorem C3_getKey_idempotent (P : CryptoProvider) :
    getKey P ⟨none⟩ = (P.deriveKey (utf8Encode SECRET_KEY) (utf8Encode SALT_VALUE)
        100000 "SHA-256" 256,
      ⟨some (P.deriveKey (utf8Encode SECRET_KEY) (utf8Encode SALT_VALUE)
        100000 "SHA-256" 256)⟩,
      [CryptoEvent.keyDerivation]) ∧
    (∀ st : ProcState P, getKey P (getKey P st).2.1 =
      ((getKey P st).1, (getKey P st).2.1, [])) ∧
    (AEADCorrect P → AEADBounded P → ∀ st1 st2 : ProcState P,
      GoodState P st1 → GoodState P st2 →
      ∀ iv, iv.length = 12 → (∀ b ∈ iv, b < 256) →
      ∀ s : String,
      (decrypt P st2 (encrypt P iv st1 s).1).1 =
        Except.ok (textDecode (utf8Encode s))) := by
  refine ⟨rfl, getKey_idem P, ?_⟩
  intro hC hB st1 st2 h1 h2 iv hiv hivb s
  have hkey : (getKey P st2).1 = (getKey P st1).1 := by
    rw [getKey_fst_of_good P st1 h1, getKey_fst_of_good P st2 h2]
  rw [decrypt_encrypt_keyeq P hC hB st1 st2 hkey iv hiv hivb s]

/-- C3 witness: encrypt on a cold cache, decrypt later with the key
already cached (the decoded result evaluates to the plaintext). -/
theorem C3_getKey_idempotent_witness :
    GoodState toyProvider ⟨none⟩ ∧
    GoodState toyProvider ⟨some (derivedKey toyProvider)⟩ ∧
    (decrypt toyProvider ⟨some (derivedKey toyProvider)⟩
      (encrypt toyProvider nonce0 ⟨none⟩ "hi").1).1 = Except.ok "hi" :=
  ⟨Or.inl rfl, Or.inr rfl,
    (C3_getKey_idempotent toyProvider).2.2 toy_correct toy_bounded ⟨none⟩
      ⟨some (derivedKey toyProvider)⟩ (Or.inl rfl) (Or.inr rfl) nonce0 rfl
      (by decide) "hi"⟩

/-- C4 counterexample: the claim says decrypt applied to either of the
two blobs returns the fixed plaintext, for every plaintext.  With the
plaintext U+FEFF and two distinct nonces the blobs do differ, but
decrypting one returns the empty string, not the plaintext, because
the decoder strips the leading byte-order mark (the same platform
behaviour refuting C1). -/
theorem C4_counterexample :
    (encrypt toyProvider nonce0 ⟨none⟩ "\uFEFF").1 ≠
      (encrypt toyProvider [1, 0, 0, 0, 0, 0, 0, 0, 0, 0, 0, 0]
        (encrypt toyProvider nonce0 ⟨none⟩ "\uFEFF").2.1 "\uFEFF").1 ∧
    (decrypt toyProvider
      (encrypt toyProvider [1, 0, 0, 0, 0, 0, 0, 0, 0, 0, 0, 0]
        (encrypt toyProvider nonce0 ⟨none⟩ "\uFEFF").2.1 "\uFEFF").2.1
      (encrypt toyProvider nonce0 ⟨none⟩ "\uFEFF").1).1 = Except.ok "" ∧
    ("" : String) ≠ "\uFEFF" :=
  ⟨by decide, rfl, by decide⟩

/-- C4 (amended): with the two fresh nonces of two successive `encrypt`
calls being distinct, the produced blobs differ, and decrypting either
blob afterwards returns the same result as the other — equal to the
fixed plaintext whenever it does not begin with U+FEFF (a leading
U+FEFF is stripped as a byte-order mark on decryption). -/
theorem C4_distinct_nonces_distinct_blobs (P : CryptoProvider) (hC : AEADCorrect P)
    (hB : AEADBounded P) (st : ProcState P) (iv1 iv2 : List Nat)
    (h1 : iv1.length = 12) (h2 : iv2.length = 12) (hb1 : ∀ b ∈ iv1, b < 256)
    (hb2 : ∀ b ∈ iv2, b < 256) (hne : iv1 ≠ iv2) (s : String) :
    (encrypt P iv1 st s).1 ≠
      (encrypt P iv2 (encrypt P iv1 st s).2.1 s).1 ∧
    (decrypt P (encrypt P iv2 (encrypt P iv1 st s).2.1 s).2.1
      (encrypt P iv1 st s).1).1 =
      (decrypt P (encrypt P iv2 (encrypt P iv1 st s).2.1 s).2.1
        (encrypt P iv2 (encrypt P iv1 st s).2.1 s).1).1 ∧
    (s.data.head? ≠ some (Char.ofNat 0xFEFF) →
      (decrypt P (encrypt P iv2 (encrypt P iv1 st s).2.1 s).2.1
        (encrypt P iv1 st s).1).1 = Except.ok s) := by
  have hkey1 : (getKey P (encrypt P iv1 st s).2.1).1 = (getKey P st).1 :=
    getKey_fst_idem P st
  have hst2 : (encrypt P iv2 (encrypt P iv1 st s).2.1 s).2.1 =
      (getKey P (encrypt P iv1 st s).2.1).2.1 := rfl
  have hkey2 : (getKey P (encrypt P iv2 (encrypt P iv1 st s).2.1 s).2.1).1 =
      (getKey P st).1 := by
    rw [hst2, getKey_fst_idem P (encrypt P iv1 st s).2.1, hkey1]
  refine ⟨?_, ?_, ?_⟩
  · intro heq
    have d1 := atob_encrypt P hB st iv1 hb1 s
    have d2 := atob_encrypt P hB (encrypt P iv1 st s).2.1 iv2 hb2 s
    rw [← heq] at d2
    rw [d1] at d2
    have hbytes := Option.some.injEq _ _ ▸ d2
    have htake := congrArg (fun l => List.take 12 l) hbytes
    simp only at htake
    rw [take_append_of_len _ _ _ h1, take_append_of_len _ _ _ h2] at htake
    exact hne htake
  · rw [decrypt_encrypt_keyeq P hC hB st _ hkey2 iv1 h1 hb1 s,
      decrypt_encrypt_keyeq P hC hB (encrypt P iv1 st s).2.1 _
        (by rw [hkey2, hkey1]) iv2 h2 hb2 s]
  · intro hbom
    rw [decrypt_encrypt_keyeq P hC hB st _ hkey2 iv1 h1 hb1 s]
    show Except.ok (textDecode (utf8Encode s)) = Except.ok s
    rw [textDecode_utf8Encode s hbom]

/-- C4 witness: two concrete distinct nonces, blobs differ, and the
first blob decrypts back to the plaintext. -/
theorem C4_distinct_nonces_distinct_blobs_witness :
    ([0, 0, 0, 0, 0, 0, 0, 0, 0, 0, 0, 0] : List Nat) ≠
      [1, 0, 0, 0, 0, 0, 0, 0, 0, 0, 0, 0] ∧
    (encrypt toyProvider [0, 0, 0, 0, 0, 0, 0, 0, 0, 0, 0, 0] ⟨none⟩ "hi").1 ≠
      (encrypt toyProvider [1, 0, 0, 0, 0, 0, 0, 0, 0, 0, 0, 0]
        (encrypt toyProvider [0, 0, 0, 0, 0, 0, 0, 0, 0, 0, 0, 0] ⟨none⟩ "hi").2.1
        "hi").1 ∧
    (decrypt toyProvider
      (encrypt toyProvider [1, 0, 0, 0, 0, 0, 0, 0, 0, 0, 0, 0]
        (encrypt toyProvider [0, 0, 0, 0, 0, 0, 0, 0, 0, 0, 0, 0] ⟨none⟩ "hi").2.1
        "hi").2.1
      (encrypt toyProvider [0, 0, 0, 0, 0, 0, 0, 0, 0, 0, 0, 0] ⟨none⟩ "hi").1).1 =
      Except.ok "hi" :=
  ⟨by decide,
    (C4_distinct_nonces_distinct_blobs toyProvider toy_correct toy_bounded ⟨none⟩
      [0, 0, 0, 0, 0, 0, 0, 0, 0, 0, 0, 0] [1, 0, 0, 0, 0, 0, 0, 0, 0, 0, 0, 0]
      rfl rfl (by decide) (by decide) (by decide) "hi").1,
    (C4_distinct_nonces_distinct_blobs toyProvider toy_correct toy_bounded ⟨none⟩
      [0, 0, 0, 0, 0, 0, 0, 0, 0, 0, 0, 0] [1, 0, 0, 0, 0, 0, 0, 0, 0, 0, 0, 0]
      rfl rfl (by decide) (by decide) (by decide) "hi").2.2 (by decide)⟩

/-- C5: flipping any single byte of the decoded body of a blob (nonce,
ciphertext, or tag) and re-encoding it makes `decrypt` fail with the
cipher error; it never returns a corrupted plaintext. -/
theorem C5_tamper_rejected (P : CryptoProvider) (hFlip : AEADFlipRejects P)
    (hB : AEADBounded P) (st : ProcState P) (iv : List Nat) (hiv : iv.length = 12)
    (hivb : ∀ b ∈ iv, b < 256) (s : String) (j b : Nat) (hbv : b < 256)
    (hj : j < (iv ++ P.subtleEncrypt (getKey P st).1 iv (utf8Encode s)).length)
    (hbne : b ≠ (iv ++ P.subtleEncrypt (getKey P st).1 iv (utf8Encode s)).getD j 0) :
    (decrypt P (encrypt P iv st s).2.1
      (base64Encode ((iv ++ P.subtleEncrypt (getKey P st).1 iv
        (utf8Encode s)).set j b))).1 = Except.error DecryptError.cipherFailure := by
  have hbnd : ∀ x ∈ (iv ++ P.subtleEncrypt (getKey P st).1 iv (utf8Encode s)).set
      j b, x < 256 := by
    apply set_bounds
    · intro x hx
      rcases List.mem_append.mp hx with hm | hm
      · exact hivb x hm
      · exact hB _ _ _ (utf8Encode_lt_256 s) x hm
    · exact hbv
  have hatob : atobBytes (base64Encode ((iv ++ P.subtleEncrypt (getKey P st).1 iv
      (utf8Encode s)).set j b)) =
      some ((iv ++ P.subtleEncrypt (getKey P st).1 iv (utf8Encode s)).set j b) :=
    atobBytes_base64Encode _ hbnd
  have hflip := hFlip (getKey P st).1 iv (utf8Encode s) j b hiv hivb
    (utf8Encode_lt_256 s) hbv (by rw [List.length_append, hiv] at hj ⊢; exact hj) hbne
  have hdec : P.subtleDecrypt (getKey P (encrypt P iv st s).2.1).1
      (((iv ++ P.subtleEncrypt (getKey P st).1 iv (utf8Encode s)).set j b).take 12)
      (((iv ++ P.subtleEncrypt (getKey P st).1 iv (utf8Encode s)).set j b).drop 12) =
      none := by
    rw [show (encrypt P iv st s).2.1 = (getKey P st).2.1 from rfl, getKey_fst_idem]
    exact hflip
  rw [decrypt_of_dec_none P (encrypt P iv st s).2.1 _ _ hatob hdec]

/-- C5 witness: flip byte 0 of a concrete blob's decoded body. -/
theorem C5_tamper_rejected_witness :
    AEADFlipRejects toyProvider ∧
    (decrypt toyProvider (encrypt toyProvider nonce0 ⟨none⟩ "hi").2.1
      (base64Encode ((nonce0 ++ toyProvider.subtleEncrypt
        (getKey toyProvider (⟨none⟩ : ProcState toyProvider)).1 nonce0
        (utf8Encode "hi")).set 0 1))).1 = Except.error DecryptError.cipherFailure :=
  ⟨toy_fliprejects,
    C5_tamper_rejected toyProvider toy_fliprejects toy_bounded ⟨none⟩ nonce0 rfl
      (by decide) "hi" 0 1 (by decide) (by decide) (by decide)⟩

/-- C9: after `saveFavorites(favs, t)` with a non-empty token, a
`loadFavorites(t)` resolves to exactly `favs`: the JSON serialization
and the encrypt/decrypt pair both round-trip through the stored
blob. -/
theorem C9_save_load_roundtrip (P : CryptoProvider) (hC : AEADCorrect P)
    (hB : AEADBounded P) (iv : List Nat) (hiv : iv.length = 12)
    (hivb : ∀ b ∈ iv, b < 256) (favs : List String) (token : String)
    (st : ProcState P) (store : Storage) (ht : token ≠ "") :
    (loadFavorites P token (saveFavorites P iv favs token st store).1
      (saveFavorites P iv favs token st store).2).1 = some favs := by
  have hsave : saveFavorites P iv favs token st store =
      ((encrypt P iv st (jsonStringify favs)).2.1,
       setItem store ("github_storage_" ++ token)
         (encrypt P iv st (jsonStringify favs)).1) := by
    unfold saveFavorites
    rw [if_neg ht]
  rw [hsave]
  unfold loadFavorites
  rw [if_neg ht, getItem_setItem]
  show (match decrypt P (encrypt P iv st (jsonStringify favs)).2.1
      (encrypt P iv st (jsonStringify favs)).1 with
    | (Except.error _, st2, _) => ((none : Option (List String)), st2)
    | (Except.ok decryptedJson, st2, _) => (jsonParse decryptedJson, st2)).1 =
    some favs
  rw [decrypt_encrypt_keyeq P hC hB st (encrypt P iv st (jsonStringify favs)).2.1
    (getKey_fst_idem P st) iv hiv hivb (jsonStringify favs)]
  show jsonParse (textDecode (utf8Encode (jsonStringify favs))) = some favs
  rw [textDecode_utf8Encode _ (jsonStringify_head favs)]
  exact jsonParse_stringify favs

/-- C9 witness: a concrete save/load pair. -/
theorem C9_save_load_roundtrip_witness :
    ("t" : String) ≠ "" ∧
    (loadFavorites toyProvider "t"
      (saveFavorites toyProvider nonce0 ["char-1", "char-7"] "t" ⟨none⟩ []).1
      (saveFavorites toyProvider nonce0 ["char-1", "char-7"] "t" ⟨none⟩ []).2).1 =
      some ["char-1", "char-7"] :=
  ⟨by decide,
    C9_save_load_roundtrip toyProvider toy_correct toy_bounded nonce0 rfl
      (by decide) ["char-1", "char-7"] "t" ⟨none⟩ [] (by decide)⟩

end StellarAI
